import Mathlib

set_option maxHeartbeats 1000000

namespace SSBBall

/-!
Shallow embedding of the schedule-reconciliation core of the `ssbball` scraper
(`scraper.py`): opponent-name normalization, game deduplication, practice
generation (recurring rules, modifications, blackouts, game-conflict buffer)
and snapshot change detection.

Strings are modelled over ASCII text (the character classes of Python's `re`
module and `str.lower`/`str.strip` are modelled on their ASCII fragment, which
covers all data this pipeline handles).  Timezone-aware datetimes are modelled
as wall-clock seconds since 0001-01-01 00:00 in the league's fixed US-Eastern
zone (a `Nat`); `datetime.isoformat` is injective on such values, DST is not
modelled.
-/

/-! ### Python string and regex primitives -/

/-- Python's whitespace class (`\s`, `str.strip`, `str.split`) on ASCII. -/
def isPySpace (c : Char) : Bool :=
  c == ' ' || c == '\t' || c == '\n' || c == '\r' || c == '\x0b' || c == '\x0c'

/-- Python's regex word class `\w` on ASCII (used for `\b` boundaries). -/
def isWordChar (c : Char) : Bool :=
  c.isAlphanum || c == '_'

/-- Length of the maximal prefix whose characters satisfy `p`. -/
def countWhile (p : Char → Bool) : List Char → Nat
  | [] => 0
  | c :: rest => if p c then countWhile p rest + 1 else 0

/-- Drop trailing Python whitespace. -/
def dropTrailWS (l : List Char) : List Char :=
  (l.reverse.dropWhile isPySpace).reverse

/-- Python `str.strip()` on ASCII. -/
def stripChars (l : List Char) : List Char :=
  dropTrailWS (l.dropWhile isPySpace)

/-- The character class `[bgBG]` of the grade+gender pattern. -/
def isBG (c : Char) : Bool :=
  c == 'b' || c == 'g' || c == 'B' || c == 'G'

/-- A regex word boundary `\b` holds after a word character when the rest of
the string starts with a non-word character (or is empty). -/
def boundaryOK : List Char → Bool
  | [] => true
  | c :: _ => !(isWordChar c)

/-- Length of a match of `\s+\d+[bgBG]\b` starting at the head of `l`
(`none` when no match starts here).  Greedy runs need no backtracking:
shortening the whitespace or digit run only moves a failing character
into a position it cannot satisfy. -/
def matchLenGG (l : List Char) : Option Nat :=
  let s := countWhile isPySpace l
  if s == 0 then none
  else
    let l1 := l.drop s
    let d := countWhile (fun c => c.isDigit) l1
    if d == 0 then none
    else
      match l1.drop d with
      | c :: rest => if isBG c && boundaryOK rest then some (s + d + 1) else none
      | [] => none

/-- Length of a match of `\s+[dD]\d+\b` (the `IGNORECASE` division pattern)
starting at the head of `l`. -/
def matchLenDiv (l : List Char) : Option Nat :=
  let s := countWhile isPySpace l
  if s == 0 then none
  else
    match l.drop s with
    | c :: rest1 =>
      if c == 'd' || c == 'D' then
        let d := countWhile (fun c2 => c2.isDigit) rest1
        if d == 0 then none
        else if boundaryOK (rest1.drop d) then some (s + 1 + d) else none
      else none
    | [] => none

/-- One left-to-right pass of `re.sub(pattern, '', text)`: at each position
outside a match, try to start a match (deleting it and resuming after its
end); matches are non-overlapping and leftmost, as in Python.  `skip` counts
characters of a current match still to delete. -/
def subAux (matchLen : List Char → Option Nat) : List Char → Nat → List Char
  | [], _ => []
  | _ :: rest, skip + 1 => subAux matchLen rest skip
  | c :: rest, 0 =>
    match matchLen (c :: rest) with
    | some (k + 1) => subAux matchLen rest k
    | _ => c :: subAux matchLen rest 0

/-- `re.sub(pattern, '', text)` for an empty-replacement pattern. -/
def pySub (matchLen : List Char → Option Nat) (l : List Char) : List Char :=
  subAux matchLen l 0

/-- `re.sub(r'\s+', ' ', text)`: collapse whitespace runs to single spaces.
The boolean records whether the previous character was whitespace. -/
def collapseAux : List Char → Bool → List Char
  | [], _ => []
  | c :: rest, prevSpace =>
    if isPySpace c then
      if prevSpace then collapseAux rest true
      else ' ' :: collapseAux rest true
    else c :: collapseAux rest false

def collapseWS (l : List Char) : List Char :=
  collapseAux l false

/-- `normalize_opponent` from `scraper.py`: lower-case and trim, delete every
`\s+\d+[bgBG]\b` match, delete every `\s+[dD]\d+\b` match, collapse whitespace
runs and trim again. -/
def normalize_opponent (s : String) : String :=
  let name := stripChars (s.data.map Char.toLower)
  let name1 := pySub matchLenGG name
  let name2 := pySub matchLenDiv name1
  String.mk (stripChars (collapseWS name2))

/-! ### Calendar arithmetic (proleptic Gregorian, as Python `datetime`) -/

def isLeapYear (y : Nat) : Bool :=
  (y % 4 == 0 && y % 100 != 0) || y % 400 == 0

def daysInMonth (y m : Nat) : Nat :=
  if m == 2 then (if isLeapYear y then 29 else 28)
  else if m == 4 || m == 6 || m == 9 || m == 11 then 30
  else 31

def daysBeforeMonth (y m : Nat) : Nat :=
  (List.range (m - 1)).foldl (fun acc i => acc + daysInMonth y (i + 1)) 0

def daysBeforeYear (y : Nat) : Nat :=
  365 * (y - 1) + (y - 1) / 4 + (y - 1) / 400 - (y - 1) / 100

/-- Day number of a calendar date; day 0 is 0001-01-01, which is a Monday. -/
def toDayNumber (y m d : Nat) : Nat :=
  daysBeforeYear y + daysBeforeMonth y m + (d - 1)

/-- Inverse of `toDayNumber` (constant-time civil-from-days algorithm). -/
def civilFromDays (n : Nat) : Nat × Nat × Nat :=
  let z := n + 306
  let era := z / 146097
  let doe := z % 146097
  let yoe := (doe - doe / 1460 + doe / 36524 - doe / 146096) / 365
  let y0 := yoe + era * 400
  let doy := doe - (365 * yoe + yoe / 4 - yoe / 100)
  let mp := (5 * doy + 2) / 153
  let d := doy - (153 * mp + 2) / 5 + 1
  let m := if mp < 10 then mp + 3 else mp - 9
  if m ≤ 2 then (y0 + 1, m, d) else (y0, m, d)

def pad2 (n : Nat) : String :=
  String.mk [Nat.digitChar (n / 10 % 10), Nat.digitChar (n % 10)]

def pad4 (n : Nat) : String :=
  String.mk [Nat.digitChar (n / 1000 % 10), Nat.digitChar (n / 100 % 10),
    Nat.digitChar (n / 10 % 10), Nat.digitChar (n % 10)]

/-- `dt.strftime('%Y-%m-%d')` of the day with the given day number. -/
def formatYMD (day : Nat) : String :=
  match civilFromDays day with
  | (y, m, d) => pad4 y ++ "-" ++ pad2 m ++ "-" ++ pad2 d

/-- `dt.isoformat()` of an Eastern wall-clock instant (fixed `-05:00` offset;
DST is not modelled, which affects no comparison made by the code). -/
def isoformatEastern (dt : Nat) : String :=
  formatYMD (dt / 86400) ++ "T" ++ pad2 (dt % 86400 / 3600) ++ ":" ++
    pad2 (dt % 3600 / 60) ++ ":" ++ pad2 (dt % 60) ++ "-05:00"

/-- `dt.weekday()`: Monday = 0 … Sunday = 6. -/
def weekdayOf (dt : Nat) : Nat :=
  dt / 86400 % 7

/-- `datetime.strptime(s, '%Y-%m-%d')`, modelled after CPython's `_strptime`
regex fragments: `%Y` is exactly four digits, `%m` is `1[0-2]|0[1-9]|[1-9]`,
`%d` is `3[01]|[12]\d|0[1-9]|[1-9]`, the whole string must be consumed, and
the resulting triple must be a valid date (year at least 1).  Returns the day
number. -/
def parse4Digits : List Char → Option (Nat × List Char)
  | a :: b :: c :: d :: rest =>
    if a.isDigit && b.isDigit && c.isDigit && d.isDigit then
      some (((a.toNat - 48) * 10 + (b.toNat - 48)) * 100 +
        (c.toNat - 48) * 10 + (d.toNat - 48), rest)
    else none
  | _ => none

def parseMonth2 : List Char → Option (Nat × List Char)
  | a :: b :: rest =>
    if a == '1' && (b == '0' || b == '1' || b == '2') then
      some (10 + (b.toNat - 48), rest)
    else if a == '0' && b.isDigit && b != '0' then some (b.toNat - 48, rest)
    else if a.isDigit && a != '0' then some (a.toNat - 48, b :: rest)
    else none
  | [a] => if a.isDigit && a != '0' then some (a.toNat - 48, []) else none
  | [] => none

def parseDay2 : List Char → Option (Nat × List Char)
  | a :: b :: rest =>
    if a == '3' && (b == '0' || b == '1') then some (30 + (b.toNat - 48), rest)
    else if (a == '1' || a == '2') && b.isDigit then
      some ((a.toNat - 48) * 10 + (b.toNat - 48), rest)
    else if a == '0' && b.isDigit && b != '0' then some (b.toNat - 48, rest)
    else if a.isDigit && a != '0' then some (a.toNat - 48, b :: rest)
    else none
  | [a] => if a.isDigit && a != '0' then some (a.toNat - 48, []) else none
  | [] => none

def parseYMD (s : String) : Option Nat :=
  match parse4Digits s.data with
  | some (y, '-' :: r1) =>
    match parseMonth2 r1 with
    | some (m, '-' :: r2) =>
      match parseDay2 r2 with
      | some (d, []) =>
        if 1 ≤ y && d ≤ daysInMonth y m then some (toDayNumber y m d) else none
      | _ => none
    | _ => none
  | _ => none

/-- `hour, minute = map(int, time_str.split(':'))`: exactly two `:`-separated
fields, each a decimal numeral (Python's `int` also accepts signs and padding,
which this pipeline never feeds it). -/
def parseNatStr (l : List Char) : Option Nat :=
  if l ≠ [] && l.all (fun c => c.isDigit) then
    some (l.foldl (fun acc c => acc * 10 + (c.toNat - 48)) 0)
  else none

/-- Python `str.split(sep)` for a one-character separator (keeps empty
fields; `"".split(sep)` is `['']`). -/
def splitOnChar (sep : Char) : List Char → List (List Char)
  | [] => [[]]
  | c :: rest =>
    match splitOnChar sep rest with
    | [] => [[]]
    | t :: ts => if c == sep then [] :: t :: ts else (c :: t) :: ts

def parseTimeHM (s : String) : Option (Nat × Nat) :=
  match splitOnChar ':' s.data with
  | [hs, ms] =>
    match parseNatStr hs, parseNatStr ms with
    | some h, some m => some (h, m)
    | _, _ => none
  | _ => none

/-! ### Event deduplication (`dedupe_games`) -/

/-- A fetched game record, with the fields `dedupe_games` reads (`datetime`,
`opponent`, `grade`, `is_tournament`) plus `location` as a representative of
the metadata that is carried along but not part of the dedup key. -/
structure GameRec where
  datetime : Nat
  opponent : String
  grade : String
  is_tournament : Bool
  location : String
deriving DecidableEq, Repr

def tournNat (g : GameRec) : Nat :=
  if g.is_tournament then 1 else 0

/-- The sort key `(g.get('is_tournament', False), g['datetime'])` compared
lexicographically; Python orders `False < True`. -/
def leagueFirstLE (a b : GameRec) : Prop :=
  tournNat a < tournNat b ∨ (tournNat a = tournNat b ∧ a.datetime ≤ b.datetime)

instance : DecidableRel leagueFirstLE := fun a b => by
  unfold leagueFirstLE; infer_instance

/-- The final sort key `g['datetime']`. -/
def whenLE (a b : GameRec) : Prop :=
  a.datetime ≤ b.datetime

instance : DecidableRel whenLE := fun a b => by
  unfold whenLE; infer_instance

/-- The dedup key `(g['datetime'].isoformat(), normalize_opponent(...),
g.get('grade', ''))`.  All datetimes carry the one league timezone, on which
`isoformat` is injective, so the key carries the timestamp itself. -/
def dedupKey (g : GameRec) : Nat × String × String :=
  (g.datetime, normalize_opponent g.opponent, g.grade)

/-- The `seen` dict walk: insert each game only if its key is unseen (first
insertion wins); `seenKeys` accumulates the keys already inserted. -/
def dedupeLoop : List GameRec → List (Nat × String × String) → List GameRec
  | [], _ => []
  | g :: rest, seenKeys =>
    if dedupKey g ∈ seenKeys then dedupeLoop rest seenKeys
    else g :: dedupeLoop rest (dedupKey g :: seenKeys)

/-- `dedupe_games` from `scraper.py`.  Python's `sorted` is a stable sort by a
total preorder, as is `List.insertionSort`, and stable sorts by the same
preorder agree; `seen.values()` enumerates in insertion order. -/
def dedupe_games (games : List GameRec) : List GameRec :=
  let sorted_games := List.insertionSort leagueFirstLE games
  List.insertionSort whenLE (dedupeLoop sorted_games [])

/-! ### Change detection (`game_to_key`, `game_to_state`, `detect_changes`) -/

/-- A raw event dict as the scraper builds it; every field the change
detector reads through `.get` is optional. -/
structure GameDict where
  datetime : Option Nat
  opponent : Option String
  location : Option String
  team_name : Option String
  short_name : Option String
  grade : Option String
  gender : Option String
  color : Option String
  game_type : Option String
  is_practice : Option Bool
deriving DecidableEq, Repr

/-- An f-string renders a missing (`None`) value as `"None"`. -/
def optStrPy : Option String → String
  | some s => s
  | none => "None"

/-- `game_to_key`: `f"{grade}-{gender}-{color}|{date_str}|{opponent}"` with
the date from `strftime('%Y-%m-%d')` (or `'unknown'` when `datetime` is
absent) and the opponent lower-cased and stripped. -/
def game_to_key (game : GameDict) : String :=
  let date_str :=
    match game.datetime with
    | some dt => formatYMD (dt / 86400)
    | none => "unknown"
  let opponent := String.mk (stripChars ((game.opponent.getD "TBD").data.map Char.toLower))
  (game.grade.getD "") ++ "-" ++ (game.gender.getD "") ++ "-" ++
    (game.color.getD "") ++ "|" ++ date_str ++ "|" ++ opponent

/-- The serializable projection stored in the schedule snapshot. -/
structure GameState where
  datetime : Option String
  opponent : String
  location : String
  team_name : String
  short_name : String
  grade : String
  gender : String
  color : String
  game_type : String
  is_practice : Bool
deriving DecidableEq, Repr

/-- `game_to_state` from `scraper.py`. -/
def game_to_state (game : GameDict) : GameState :=
  { datetime := game.datetime.map isoformatEastern
    opponent := game.opponent.getD ""
    location := game.location.getD ""
    team_name := game.team_name.getD ""
    short_name := game.short_name.getD ""
    grade := game.grade.getD ""
    gender := game.gender.getD ""
    color := game.color.getD ""
    game_type := game.game_type.getD ""
    is_practice := game.is_practice.getD false }

/-- Python dict insertion: later assignment to an existing key overwrites the
value in place, a fresh key is appended. -/
def upsert (m : List (String × α)) (k : String) (v : α) : List (String × α) :=
  match m with
  | [] => [(k, v)]
  | (k', v') :: rest => if k' = k then (k', v) :: rest else (k', v') :: upsert rest k v

/-- Build an insertion-ordered dict keyed by `f` from a list (`d[f(x)] = x`). -/
def buildDict (f : α → String) (l : List α) : List (String × α) :=
  l.foldl (fun m x => upsert m (f x) x) []

def lookupD (m : List (String × α)) (k : String) : Option α :=
  (m.find? (fun p => p.1 == k)).map (fun p => p.2)

def hasKeyD (m : List (String × α)) (k : String) : Bool :=
  m.any (fun p => p.1 == k)

/-- One change-description dict.  `new` entries carry `event`, `deleted`
entries carry `previous`, `modified` entries carry both plus the two flags. -/
structure ChangeEntry where
  type : String
  team_key : String
  event : Option GameDict
  previous : Option GameState
  time_changed : Bool
  location_changed : Bool
deriving DecidableEq, Repr

structure Changes where
  new : List ChangeEntry
  deleted : List ChangeEntry
  modified : List ChangeEntry
deriving DecidableEq, Repr

/-- The loaded previous snapshot: `previous_state.get('games', {})` and
`previous_state.get('practices', {})`. -/
structure PrevState where
  games : List (String × GameState)
  practices : List (String × GameState)

/-- `f"{game.get('grade')}-{game.get('gender')}-{game.get('color')}"`:
`.get` without default renders missing fields as `"None"`. -/
def teamKeyOf (g : GameDict) : String :=
  optStrPy g.grade ++ "-" ++ optStrPy g.gender ++ "-" ++ optStrPy g.color

/-- The new/modified pass over the current dict (one namespace): a key absent
from the previous snapshot is `new`; a present key is `modified` when the
stored datetime string or location differs. -/
def newModEntries (typeLabel : String) (prev : List (String × GameState)) :
    List (String × GameDict) → List ChangeEntry × List ChangeEntry
  | [] => ([], [])
  | (key, game) :: rest =>
    let done := newModEntries typeLabel prev rest
    match lookupD prev key with
    | none =>
      ({ type := typeLabel, team_key := teamKeyOf game, event := some game,
         previous := none, time_changed := false, location_changed := false } :: done.1,
       done.2)
    | some p =>
      let curr_state := game_to_state game
      let time_changed := decide (p.datetime ≠ curr_state.datetime)
      let location_changed := decide (p.location ≠ curr_state.location)
      if time_changed || location_changed then
        (done.1,
         { type := typeLabel, team_key := teamKeyOf game, event := some game,
           previous := some p, time_changed := time_changed,
           location_changed := location_changed } :: done.2)
      else done

/-- The deleted pass: previous keys missing from the current dict. -/
def deletedEntries (typeLabel : String) (curr : List (String × GameDict)) :
    List (String × GameState) → List ChangeEntry
  | [] => []
  | (key, p) :: rest =>
    if hasKeyD curr key then deletedEntries typeLabel curr rest
    else
      { type := typeLabel, team_key := p.grade ++ "-" ++ p.gender ++ "-" ++ p.color,
        event := none, previous := some p, time_changed := false,
        location_changed := false } :: deletedEntries typeLabel curr rest

/-- `detect_changes` from `scraper.py`: games and practices are diffed by the
same logic in separate namespaces; buckets list game entries before practice
entries, as the source appends them. -/
def detect_changes (previous_state : PrevState)
    (current_games current_practices : List GameDict) : Changes :=
  let curr_games := buildDict game_to_key current_games
  let curr_practices := buildDict game_to_key current_practices
  let g := newModEntries "game" previous_state.games curr_games
  let gDel := deletedEntries "game" curr_games previous_state.games
  let p := newModEntries "practice" previous_state.practices curr_practices
  let pDel := deletedEntries "practice" curr_practices previous_state.practices
  { new := g.1 ++ p.1, deleted := gDel ++ pDel, modified := g.2 ++ p.2 }

/-! ### Season window, blackouts and practice generation -/

/-- A recurring weekly practice rule, as configured; every field is read with
a `.get` default. -/
structure RecurringRule where
  day : Option String
  time : Option String
  duration : Option Nat
  location : Option String
  notes : Option String
deriving DecidableEq, Repr

/-- A single explicitly dated practice entry. -/
structure AdhocEntry where
  date : Option String
  time : Option String
  duration : Option Nat
  location : Option String
  notes : Option String
deriving DecidableEq, Repr

/-- A modification entry keyed by calendar date (`action` is `'cancel'` or
`'modify'`). -/
structure Modification where
  date : Option String
  action : Option String
  time : Option String
  duration : Option Nat
  location : Option String
  notes : Option String
deriving DecidableEq, Repr

structure BlackoutCfg where
  start : Option String
  end_ : Option String
  reason : Option String
deriving DecidableEq, Repr

/-- The `season` config section (`none` models an absent or empty section,
both falsy in Python). -/
structure SeasonCfg where
  start : Option String
  end_ : Option String
  blackout_dates : List BlackoutCfg
deriving DecidableEq, Repr

structure TeamPractices where
  recurring : List RecurringRule
  adhoc : List AdhocEntry
  modifications : List Modification
deriving DecidableEq, Repr

/-- The parts of the full config that practice generation reads.  `practices`
maps a team key to that team's practice config (`none` lookup models both a
missing and an empty, falsy, per-team dict). -/
structure Config where
  season : Option SeasonCfg
  practices : List (String × TeamPractices)
deriving Repr

/-- A generated practice event dict (`generate_practice_events` output). -/
structure PracticeEvent where
  datetime : Nat
  opponent : String
  location : String
  team_name : String
  short_name : String
  game_type : String
  league : String
  is_practice : Bool
  duration : Nat
  notes : String
  grade : String
  gender : String
  color : String
deriving DecidableEq, Repr

/-- `parse_season_dates`: each bound parses independently; a missing or empty
or unparsable bound is `None`.  The start is the date at 00:00, the end is the
date at 23:59:59. -/
def parse_season_dates (config : Config) : Option Nat × Option Nat :=
  match config.season with
  | none => (none, none)
  | some season =>
    let start_date :=
      match season.start with
      | some s => if s ≠ "" then (parseYMD s).map (fun day => day * 86400) else none
      | none => none
    let end_date :=
      match season.end_ with
      | some s => if s ≠ "" then (parseYMD s).map (fun day => day * 86400 + 86399) else none
      | none => none
    (start_date, end_date)

/-- `parse_blackout_dates`: entries with a missing/empty bound are skipped, as
are entries where either bound fails to parse. -/
def parse_blackout_dates (config : Config) : List (Nat × Nat × String) :=
  match config.season with
  | none => []
  | some season =>
    season.blackout_dates.foldr
      (fun b acc =>
        match b.start, b.end_ with
        | some s, some e =>
          if s ≠ "" ∧ e ≠ "" then
            match parseYMD s, parseYMD e with
            | some ds, some de => (ds * 86400, de * 86400 + 86399, b.reason.getD "Blackout") :: acc
            | _, _ => acc
          else acc
        | _, _ => acc)
      []

/-- `is_blackout_date`: first matching closed interval wins. -/
def is_blackout_date (dt : Nat) (blackouts : List (Nat × Nat × String)) : Option String :=
  match blackouts with
  | [] => none
  | (s, e, reason) :: rest =>
    if s ≤ dt ∧ dt ≤ e then some reason else is_blackout_date dt rest

/-- The `conflicts_with_game` closure: a practice `[start, start+duration)`
conflicts with a game when `practice_dt < game_end + 1h` and
`practice_end > game_dt - 1h`, with `game_end = game_dt + 1h`; games without a
datetime are skipped.  The subtraction is over genuine (`Int`) arithmetic. -/
def conflicts_with_game (team_games : List (Option Nat)) (practice_dt duration : Nat) : Bool :=
  team_games.any fun gdt =>
    match gdt with
    | none => false
    | some game_dt =>
      let practice_end := practice_dt + duration * 60
      let game_end := game_dt + 3600
      decide ((practice_dt : Int) < (game_end : Int) + 3600 ∧
        (practice_end : Int) > (game_dt : Int) - 3600)

def DAY_TO_WEEKDAY : List (String × Nat) :=
  [("monday", 0), ("tuesday", 1), ("wednesday", 2), ("thursday", 3),
   ("friday", 4), ("saturday", 5), ("sunday", 6)]

def lookupDay (name : String) : Option Nat :=
  (DAY_TO_WEEKDAY.find? (fun p => p.1 == name)).map (fun p => p.2)

/-- `current.replace(hour=h, minute=m, second=0, microsecond=0)`. -/
def replaceTimeHM0 (dt h m : Nat) : Nat :=
  dt / 86400 * 86400 + h * 3600 + m * 60

/-- `current.replace(hour=h, minute=m)`: seconds are kept. -/
def replaceHM (dt h m : Nat) : Nat :=
  dt / 86400 * 86400 + h * 3600 + m * 60 + dt % 60

/-- `mod_by_date` lookup: the dict is built mod-list order with truthy dates,
so the last modification carrying this exact date string wins. -/
def findMod (mods : List Modification) (date_str : String) : Option Modification :=
  mods.foldl
    (fun acc m =>
      match m.date with
      | some d => if d ≠ "" ∧ d = date_str then some m else acc
      | none => acc)
    none

/-- The `modify` overlay of the time field: `if mod.get('time'):` then parse
and `replace` inside one `try`, so both an unparsable time and an
out-of-range hour/minute (a `ValueError` from `replace`) leave the occurrence
unchanged. -/
def applyModTime (mod : Modification) (current : Nat) : Nat :=
  match mod.time with
  | some t =>
    if t ≠ "" then
      match parseTimeHM t with
      | some (h, m) => if h ≤ 23 ∧ m ≤ 59 then replaceHM current h m else current
      | none => current
    else current
  | none => current

/-- Truthy (`if mod.get('duration'):` etc.) overlay of the remaining three
modify fields. -/
def applyModDuration (mod : Modification) (duration : Nat) : Nat :=
  match mod.duration with
  | some d => if d ≠ 0 then d else duration
  | none => duration

def applyModStr (field : Option String) (old : String) : String :=
  match field with
  | some s => if s ≠ "" then s else old
  | none => old

/-- Build one emitted practice-event dict. -/
def mkPracticeEvent (team_key team_name short_name : String)
    (dt duration : Nat) (location notes : String) : PracticeEvent :=
  let parts := (splitOnChar '-' team_key.data).map String.mk
  { datetime := dt
    opponent := ""
    location := location
    team_name := team_name
    short_name := short_name
    game_type := "practice"
    league := "Practice"
    is_practice := true
    duration := duration
    notes := notes
    grade := if parts.length > 1 then parts.getD 0 "" else ""
    gender := if parts.length > 1 then parts.getD 1 "" else ""
    color := if parts.length > 2 then parts.getD 2 "" else "" }

/-- The weekly `while current <= season_end` loop of one recurring rule.
`duration`, `location`, `notes` and `current` are the loop-carried Python
locals: a `modify` entry overwrites them for the rest of the loop, exactly as
the source does.  `fuel` bounds the iteration count (each iteration advances
`current` by one week, so any fuel above the number of weeks up to
`season_end` is enough). -/
def recurLoop (season_end : Nat) (mods : List Modification)
    (blackouts : List (Nat × Nat × String)) (team_games : List (Option Nat))
    (team_key team_name short_name : String) :
    Nat → Nat → Nat → String → String → List PracticeEvent
  | 0, _, _, _, _ => []
  | fuel + 1, current, duration, location, notes =>
    if current ≤ season_end then
      let date_str := formatYMD (current / 86400)
      let step : Nat → Nat → String → String → List PracticeEvent :=
        fun cur dur loc nts =>
          if (is_blackout_date cur blackouts).isSome then
            recurLoop season_end mods blackouts team_games team_key team_name short_name
              fuel (cur + 604800) dur loc nts
          else if conflicts_with_game team_games cur dur then
            recurLoop season_end mods blackouts team_games team_key team_name short_name
              fuel (cur + 604800) dur loc nts
          else
            mkPracticeEvent team_key team_name short_name cur dur loc nts ::
              recurLoop season_end mods blackouts team_games team_key team_name short_name
                fuel (cur + 604800) dur loc nts
      match findMod mods date_str with
      | some mod =>
        if mod.action = some "cancel" then
          recurLoop season_end mods blackouts team_games team_key team_name short_name
            fuel (current + 604800) duration location notes
        else if mod.action = some "modify" then
          step (applyModTime mod current) (applyModDuration mod duration)
            (applyModStr mod.location location) (applyModStr mod.notes notes)
        else step current duration location notes
      | none => step current duration location notes
    else []

/-- The first candidate occurrence: `days_until_target = (target_weekday -
current.weekday()) % 7` (Python's floored modulo on a possibly negative
difference), then `replace(hour, minute, second=0, microsecond=0)`. -/
def firstOccurrence (season_start target_weekday hour minute : Nat) : Nat :=
  let days_until := ((((target_weekday : Int) - (weekdayOf season_start : Int)) % 7).toNat)
  replaceTimeHM0 (season_start + days_until * 86400) hour minute

/-- Events generated by one recurring rule: resolve the weekday and the time,
find the first occurrence on or after the season start, then run the weekly
loop. -/
def recurRuleEvents (season_start season_end : Nat) (mods : List Modification)
    (blackouts : List (Nat × Nat × String)) (team_games : List (Option Nat))
    (team_key team_name short_name : String) (schedule : RecurringRule) :
    List PracticeEvent :=
  let day_name := String.mk ((schedule.day.getD "").data.map Char.toLower)
  let time_str := schedule.time.getD "18:00"
  let duration := schedule.duration.getD 60
  let location := schedule.location.getD ""
  let notes := schedule.notes.getD ""
  match lookupDay day_name with
  | none => []
  | some target_weekday =>
    match parseTimeHM time_str with
    | none => []
    | some (hour, minute) =>
      recurLoop season_end mods blackouts team_games team_key team_name short_name
        (season_end / 604800 + 2) (firstOccurrence season_start target_weekday hour minute)
        duration location notes

/-- Events from the ad-hoc list: parsed date+time must land inside the season
window and clear the game-conflict check; blackouts are not consulted.  An
out-of-range hour/minute raises inside the same `try` as the parse and skips
the entry. -/
def adhocEvents (season_start season_end : Nat) (team_games : List (Option Nat))
    (team_key team_name short_name : String) (adhoc : List AdhocEntry) :
    List PracticeEvent :=
  adhoc.foldr
    (fun entry acc =>
      match entry.date with
      | none => acc
      | some date_str =>
        if date_str = "" then acc
        else
          let time_str := entry.time.getD "18:00"
          let duration := entry.duration.getD 60
          let location := entry.location.getD ""
          let notes := entry.notes.getD ""
          match parseTimeHM time_str with
          | none => acc
          | some (hour, minute) =>
            if hour ≤ 23 ∧ minute ≤ 59 then
              match parseYMD date_str with
              | none => acc
              | some day =>
                let practice_dt := day * 86400 + hour * 3600 + minute * 60
                if season_start ≤ practice_dt ∧ practice_dt ≤ season_end then
                  if conflicts_with_game team_games practice_dt duration then acc
                  else mkPracticeEvent team_key team_name short_name practice_dt
                    duration location notes :: acc
                else acc
            else acc)
    []

/-- `generate_practice_events` from `scraper.py`.  `team_games` carries the
datetimes of this team's games (the only field the conflict check reads). -/
def generate_practice_events (config : Config) (team_key team_name short_name : String)
    (team_games : List (Option Nat)) : List PracticeEvent :=
  match lookupD config.practices team_key with
  | none => []
  | some team_practices =>
    match parse_season_dates config with
    | (some season_start, some season_end) =>
      let blackouts := parse_blackout_dates config
      (team_practices.recurring.map
        (recurRuleEvents season_start season_end team_practices.modifications
          blackouts team_games team_key team_name short_name)).flatten ++
      adhocEvents season_start season_end team_games team_key team_name short_name
        team_practices.adhoc
    | _ => []

/-! ### Spec-side reference definitions (for comparison with the code) -/

/-- Two half-open intervals `[a1, b1)` and `[a2, b2)` overlap. -/
def intervalsOverlap (a1 b1 a2 b2 : Int) : Prop :=
  a1 < b2 ∧ a2 < b1

/-- Spec-side conflict: the practice interval `[start, start+duration)`
padded by a 1-hour buffer on both ends overlaps the game's
`[game_start, game_start+1h)`. -/
def paddedConflictSpec (game_dt practice_dt duration : Nat) : Prop :=
  intervalsOverlap ((practice_dt : Int) - 3600)
    ((practice_dt : Int) + (duration : Int) * 60 + 3600)
    (game_dt : Int) ((game_dt : Int) + 3600)

/-- Strip one trailing grade+gender token `<digits><B or G>` preceded by
whitespace, per the claimed reference pipeline (trailing position only). -/
def stripTrailGG (l : List Char) : List Char :=
  match l.reverse with
  | c :: rest =>
    if isBG c then
      let d := countWhile (fun c2 => c2.isDigit) rest
      if d ≠ 0 then
        let rest2 := rest.drop d
        let s := countWhile isPySpace rest2
        if s ≠ 0 then (rest2.drop s).reverse else l
      else l
    else l
  | [] => l

/-- Strip one trailing division token `D<digits>` (case-insensitive) preceded
by whitespace, per the claimed reference pipeline. -/
def stripTrailDiv (l : List Char) : List Char :=
  let r := l.reverse
  let d := countWhile (fun c2 => c2.isDigit) r
  if d ≠ 0 then
    match r.drop d with
    | c :: rest2 =>
      if c == 'd' || c == 'D' then
        let s := countWhile isPySpace rest2
        if s ≠ 0 then (rest2.drop s).reverse else l
      else l
    | [] => l
  else l

/-- The normalization pipeline exactly as the claim words it: lower-case and
trim, strip a trailing grade+gender token, strip a trailing division token,
collapse internal whitespace, trim again — tokens not in trailing position
are left in place. -/
def normalizeTrailingSpec (s : String) : String :=
  let name := stripChars (s.data.map Char.toLower)
  let name1 := stripTrailGG name
  let name2 := stripTrailDiv name1
  String.mk (stripChars (collapseWS name2))

/-- A whitespace-free alphanumeric token (word characters only, nonempty). -/
def wordTok (l : List Char) : Prop :=
  l ≠ [] ∧ ∀ c ∈ l, isWordChar c = true

instance (l : List Char) : Decidable (wordTok l) :=
  inferInstanceAs (Decidable (l ≠ [] ∧ ∀ c ∈ l, isWordChar c = true))

/-- A whole token matching the grade+gender pattern `\d+[bgBG]`. -/
def isGGTokB (l : List Char) : Bool :=
  let d := countWhile (fun c => c.isDigit) l
  decide (d ≠ 0) &&
    (match l.drop d with
     | [c] => isBG c
     | _ => false)

/-- A whole token matching the division pattern `[dD]\d+`. -/
def isDivTokB (l : List Char) : Bool :=
  match l with
  | c :: rest => (c == 'd' || c == 'D') && decide (rest ≠ []) && rest.all (fun c2 => c2.isDigit)
  | [] => false

/-- Join tokens with single separating spaces (the tail part). -/
def sepJoin : List (List Char) → List Char
  | [] => []
  | u :: ts => ' ' :: u ++ sepJoin ts

/-- Join a nonempty token list with single separating spaces. -/
def joinTok : List (List Char) → List Char
  | [] => []
  | t :: ts => t ++ sepJoin ts

/-! ### Concrete configurations and records used by individual claims -/

/-- A season with one recurring rule and the given modifications. -/
def cfgOneRule (ss es : String) (bl : List BlackoutCfg) (tk : String)
    (r : RecurringRule) (mods : List Modification) : Config :=
  { season := some { start := some ss, end_ := some es, blackout_dates := bl }
    practices := [(tk, { recurring := [r], adhoc := [], modifications := mods })] }

/-- A season with one ad-hoc practice entry and nothing else. -/
def cfgOneAdhoc (ss es : String) (bl : List BlackoutCfg) (tk : String)
    (a : AdhocEntry) : Config :=
  { season := some { start := some ss, end_ := some es, blackout_dates := bl }
    practices := [(tk, { recurring := [], adhoc := [a], modifications := [] })] }

def ruleMondayA : RecurringRule :=
  { day := some "Monday", time := some "18:00", duration := some 60,
    location := some "Gym A", notes := none }

def modJan6GymB : Modification :=
  { date := some "2025-01-06", action := some "modify", time := none,
    duration := none, location := some "Gym B", notes := none }

/-- Season 2025-01-06 … 2025-01-20 (three Mondays), one Monday 18:00 rule at
`Gym A`, and a single-date `modify` entry moving the 2025-01-06 occurrence to
`Gym B`. -/
def cfgModBleed : Config :=
  cfgOneRule "2025-01-06" "2025-01-20" [] "5-M-Red" ruleMondayA [modJan6GymB]

def tpModBleed : TeamPractices :=
  { recurring := [ruleMondayA], adhoc := [], modifications := [modJan6GymB] }

def blackoutJan13 : List BlackoutCfg :=
  [{ start := some "2025-01-13", end_ := some "2025-01-13", reason := some "vacation" }]

def ruleMonday18 : RecurringRule :=
  { day := some "monday", time := some "18:00", duration := some 60,
    location := some "Gym A", notes := none }

def adhocJan13at19 : AdhocEntry :=
  { date := some "2025-01-13", time := some "19:00", duration := some 90,
    location := some "Gym C", notes := some "extra" }

/-- Config for the game-conflict scenario: Monday 18:00 rule plus an ad-hoc
practice at 20:00 on 2025-01-13, with a game that day at 17:30. -/
def cfgConflict : Config :=
  { season := some { start := some "2025-01-06", end_ := some "2025-01-20", blackout_dates := [] }
    practices := [("5-M-Red",
      { recurring := [ruleMonday18]
        adhoc := [{ date := some "2025-01-13", time := some "20:00", duration := some 60,
                    location := some "Gym C", notes := none }]
        modifications := [] })] }

def gameJan13at1730 : Nat :=
  toDayNumber 2025 1 13 * 86400 + 17 * 3600 + 1800

/-- Config whose season start date fails to parse. -/
def cfgBadSeason : Config :=
  { season := some { start := some "soon", end_ := some "2025-01-20", blackout_dates := [] }
    practices := [("5-M-Red",
      { recurring := [ruleMonday18], adhoc := [], modifications := [] })] }

/-- Two league game records identical except for `location` (same dedup key,
same sort key). -/
def gLoc1 : GameRec :=
  { datetime := toDayNumber 2025 12 7 * 86400 + 64800, opponent := "Stoughton",
    grade := "5", is_tournament := false, location := "Gym 1" }

def gLoc2 : GameRec :=
  { datetime := toDayNumber 2025 12 7 * 86400 + 64800, opponent := "Stoughton",
    grade := "5", is_tournament := false, location := "Gym 2" }

/-- A league record and a tournament duplicate of the same fixture (opponent
suffixed differently by the two sources). -/
def gLeague : GameRec :=
  { datetime := toDayNumber 2025 12 7 * 86400 + 64800, opponent := "Stoughton 5B D1",
    grade := "5", is_tournament := false, location := "Home" }

def gTourn : GameRec :=
  { datetime := toDayNumber 2025 12 7 * 86400 + 64800, opponent := "Stoughton D1",
    grade := "5", is_tournament := true, location := "Away" }

/-- Distinct-time records for the order-independence witness. -/
def gEarly : GameRec :=
  { datetime := toDayNumber 2025 12 6 * 86400 + 36000, opponent := "Canton",
    grade := "5", is_tournament := true, location := "Away" }

/-- Snapshot-side and current-side event dicts whose opponents agree after
normalization but not after mere lower+strip. -/
def gPrevNorm : GameDict :=
  { datetime := some (toDayNumber 2025 12 7 * 86400 + 64800),
    opponent := some "Stoughton 5B D1", location := some "North Gym",
    team_name := some "Grade 5 Red", short_name := some "5B-Red",
    grade := some "5", gender := some "M", color := some "Red",
    game_type := some "league", is_practice := some false }

def gCurrNorm : GameDict :=
  { datetime := some (toDayNumber 2025 12 7 * 86400 + 64800),
    opponent := some "Stoughton D1", location := some "North Gym",
    team_name := some "Grade 5 Red", short_name := some "5B-Red",
    grade := some "5", gender := some "M", color := some "Red",
    game_type := some "league", is_practice := some false }

/-- A previous snapshot holding exactly one game: the stored projection of
`g` under its own key. -/
def snapshotOf (g : GameDict) : PrevState :=
  { games := [(game_to_key g, game_to_state g)], practices := [] }

/-- The same fixture at 18:00 (stored in the snapshot) and at 19:00 (current
run): only the time-of-day differs. -/
def gAt18 : GameDict :=
  { datetime := some (toDayNumber 2025 12 7 * 86400 + 64800),
    opponent := some "Stoughton", location := some "North Gym",
    team_name := some "Grade 5 Red", short_name := some "5B-Red",
    grade := some "5", gender := some "M", color := some "Red",
    game_type := some "league", is_practice := some false }

def gAt19 : GameDict :=
  { datetime := some (toDayNumber 2025 12 7 * 86400 + 68400),
    opponent := some "Stoughton", location := some "North Gym",
    team_name := some "Grade 5 Red", short_name := some "5B-Red",
    grade := some "5", gender := some "M", color := some "Red",
    game_type := some "league", is_practice := some false }

/-- Like `gAt19` but with the opponent padded and upper-cased: equal to
`gAt18`'s opponent after lower+strip only. -/
def gOppSpaced : GameDict :=
  { datetime := some (toDayNumber 2025 12 7 * 86400 + 68400),
    opponent := some "  STOUGHTON ", location := some "North Gym",
    team_name := some "Grade 5 Red", short_name := some "5B-Red",
    grade := some "5", gender := some "M", color := some "Red",
    game_type := some "league", is_practice := some false }

/-- The pair `(is_tournament, datetime)` that the first sort compares. -/
def sortKey1 (g : GameRec) : Nat × Nat :=
  (tournNat g, g.datetime)

/-! ### Theorems -/

instance : IsTotal GameRec leagueFirstLE :=
  ⟨fun a b => by unfold leagueFirstLE; omega⟩

instance : IsTrans GameRec leagueFirstLE :=
  ⟨fun a b c hab hbc => by unfold leagueFirstLE at *; omega⟩

instance : IsTotal GameRec whenLE :=
  ⟨fun a b => by unfold whenLE; omega⟩

instance : IsTrans GameRec whenLE :=
  ⟨fun a b c hab hbc => by unfold whenLE at *; omega⟩

/-- The records of `dedupeLoop l seen` carrying dedup key `k`: none when `k`
was already seen, otherwise exactly the first `k`-keyed record of `l`. -/
theorem dedupeLoop_filter (k : Nat × String × String) :
    ∀ (l : List GameRec) (seen : List (Nat × String × String)),
      (dedupeLoop l seen).filter (fun g => decide (dedupKey g = k)) =
        if k ∈ seen then []
        else
          match l.find? (fun g => decide (dedupKey g = k)) with
          | some g => [g]
          | none => [] := by
  intro l
  induction l with
  | nil =>
    intro seen
    simp only [dedupeLoop, List.filter_nil, List.find?_nil]
    split <;> rfl
  | cons g rest ih =>
    intro seen
    simp only [dedupeLoop]
    by_cases hk : dedupKey g = k
    · subst hk
      by_cases hg : dedupKey g ∈ seen
      · simp [hg, ih seen]
      · rw [if_neg hg, List.filter_cons_of_pos (by simp),
          List.find?_cons_of_pos _ (by simp), ih (dedupKey g :: seen),
          if_pos (List.mem_cons_self _ _), if_neg hg]
    · have hk2 : k ≠ dedupKey g := fun h2 => hk h2.symm
      rw [List.find?_cons_of_neg _ (by simp [hk])]
      by_cases hg : dedupKey g ∈ seen
      · rw [if_pos hg, ih seen]
      · rw [if_neg hg, List.filter_cons_of_neg (by simp [hk]),
          ih (dedupKey g :: seen)]
        by_cases hks : k ∈ seen
        · rw [if_pos (List.mem_cons_of_mem _ hks), if_pos hks]
        · rw [if_neg (by simp [List.mem_cons, hk2, hks]), if_neg hks]

/-- In a league-first sorted list whose only `k`-keyed records are the league
record `a` and the tournament record `b`, the first `k`-keyed record is `a`. -/
theorem find_first_league (a b : GameRec) (k : Nat × String × String)
    (hka : dedupKey a = k) (hat : a.is_tournament = false)
    (hbt : b.is_tournament = true) :
    ∀ l : List GameRec, l.Pairwise leagueFirstLE → a ∈ l →
      (∀ c ∈ l, dedupKey c = k → c = a ∨ c = b) →
      l.find? (fun g => decide (dedupKey g = k)) = some a := by
  intro l
  induction l with
  | nil => intro _ ha; simp at ha
  | cons h t ih =>
    intro hp hmem honly
    by_cases hh : dedupKey h = k
    · rcases honly h (List.mem_cons_self h t) hh with rfl | rfl
      · simp [List.find?, hh]
      · exfalso
        have hab : a ≠ h := fun he => by rw [he, hbt] at hat; exact Bool.noConfusion hat
        have hat2 : a ∈ t := by
          rcases List.mem_cons.mp hmem with h2 | h2
          · exact absurd h2 hab
          · exact h2
        have hba : leagueFirstLE h a := (List.pairwise_cons.mp hp).1 a hat2
        unfold leagueFirstLE tournNat at hba
        rw [hat, hbt] at hba
        simp at hba
    · have hha : h ≠ a := fun he => hh (he ▸ hka)
      have hat2 : a ∈ t := by
        rcases List.mem_cons.mp hmem with h2 | h2
        · exact absurd h2.symm hha
        · exact h2
      rw [List.find?, (by simp [hh] : (decide (dedupKey h = k)) = false)]
      exact ih (List.pairwise_cons.mp hp).2 hat2
        (fun c hc hkc => honly c (List.mem_cons_of_mem _ hc) hkc)

/-- C1: whenever the input contains a league record `a` and a tournament
record `b` with the same dedup key (and no other record carries that key),
`dedupe_games` keeps exactly one record for that key, namely `a` — in every
input order. -/
theorem dedupe_keeps_league_over_tournament (xs : List GameRec) (a b : GameRec)
    (ha : a ∈ xs) (_hk : dedupKey b = dedupKey a)
    (hat : a.is_tournament = false) (hbt : b.is_tournament = true)
    (honly : ∀ c ∈ xs, dedupKey c = dedupKey a → c = a ∨ c = b) :
    (dedupe_games xs).filter (fun g => decide (dedupKey g = dedupKey a)) = [a] := by
  unfold dedupe_games
  have hsorted : (List.insertionSort leagueFirstLE xs).Pairwise leagueFirstLE :=
    List.sorted_insertionSort leagueFirstLE xs
  have hmem : a ∈ List.insertionSort leagueFirstLE xs :=
    (List.mem_insertionSort leagueFirstLE).mpr ha
  have honly2 : ∀ c ∈ List.insertionSort leagueFirstLE xs,
      dedupKey c = dedupKey a → c = a ∨ c = b :=
    fun c hc => honly c ((List.mem_insertionSort leagueFirstLE).mp hc)
  have hfind := find_first_league a b (dedupKey a) rfl hat hbt
    (List.insertionSort leagueFirstLE xs) hsorted hmem honly2
  have hloop := dedupeLoop_filter (dedupKey a) (List.insertionSort leagueFirstLE xs) []
  rw [if_neg (by simp), hfind] at hloop
  have hperm2 := (List.perm_insertionSort whenLE
    (dedupeLoop (List.insertionSort leagueFirstLE xs) [])).filter
    (fun g => decide (dedupKey g = dedupKey a))
  rw [hloop] at hperm2
  exact List.perm_singleton.mp hperm2

/-- Witness for C1: the tournament copy listed first still loses. -/
theorem dedupe_keeps_league_over_tournament_witness :
    dedupKey gTourn = dedupKey gLeague ∧
    (dedupe_games [gTourn, gLeague]).filter
      (fun g => decide (dedupKey g = dedupKey gLeague)) = [gLeague] :=
  ⟨by decide,
   dedupe_keeps_league_over_tournament [gTourn, gLeague] gLeague gTourn
     (by decide) (by decide) (by decide) (by decide) (by decide)⟩

/-- Two sorted lists that are permutations of each other agree when records
with equal sort keys are equal. -/
theorem sorted_perm_eq_of_distinct_sortKey :
    ∀ l1 l2 : List GameRec, l1.Perm l2 → l1.Pairwise leagueFirstLE →
      l2.Pairwise leagueFirstLE →
      l1.Pairwise (fun x y => x = y ∨ sortKey1 x ≠ sortKey1 y) → l1 = l2 := by
  intro l1
  induction l1 with
  | nil => intro l2 hp _ _ _; exact (hp.symm.eq_nil).symm
  | cons x t1 ih =>
    intro l2 hp hs1 hs2 hd
    cases l2 with
    | nil => exact absurd hp.eq_nil (by simp)
    | cons y t2 =>
      by_cases hxy : x = y
      · subst hxy
        have hpt : t1.Perm t2 := hp.cons_inv
        rw [ih t2 hpt (List.pairwise_cons.mp hs1).2 (List.pairwise_cons.mp hs2).2
          (List.pairwise_cons.mp hd).2]
      · exfalso
        have hx2 : x ∈ t2 := by
          rcases List.mem_cons.mp (hp.subset (List.mem_cons_self x t1)) with h2 | h2
          · exact absurd h2 hxy
          · exact h2
        have hy1 : y ∈ t1 := by
          rcases List.mem_cons.mp (hp.symm.subset (List.mem_cons_self y t2)) with h2 | h2
          · exact absurd h2.symm hxy
          · exact h2
        have r1 : leagueFirstLE x y := (List.pairwise_cons.mp hs1).1 y hy1
        have r2 : leagueFirstLE y x := (List.pairwise_cons.mp hs2).1 x hx2
        have hne : sortKey1 x ≠ sortKey1 y := by
          rcases (List.pairwise_cons.mp hd).1 y hy1 with h2 | h2
          · exact absurd h2 hxy
          · exact h2
        apply hne
        unfold leagueFirstLE at r1 r2
        unfold sortKey1
        have heq : tournNat x = tournNat y ∧ x.datetime = y.datetime := by omega
        rw [heq.1, heq.2]

/-- C5 (amended): the output of `dedupe_games` is always sorted ascending by
`when`, for every input; and it is identical across permutations of the input
provided no two distinct input records share both the `is_tournament` flag and
the `when` timestamp. -/
theorem dedupe_sorted_and_order_independent (xs ys : List GameRec) :
    (dedupe_games xs).Pairwise whenLE ∧
    (ys.Perm xs →
      xs.Pairwise (fun x y => x = y ∨ sortKey1 x ≠ sortKey1 y) →
      dedupe_games ys = dedupe_games xs) := by
  have hsym : ∀ {u v : GameRec}, (u = v ∨ sortKey1 u ≠ sortKey1 v) →
      (v = u ∨ sortKey1 v ≠ sortKey1 u) :=
    fun h => h.elim (fun h2 => Or.inl h2.symm) (fun h2 => Or.inr fun h3 => h2 h3.symm)
  constructor
  · exact List.sorted_insertionSort whenLE _
  · intro hperm hdist
    unfold dedupe_games
    have h1 : List.insertionSort leagueFirstLE ys = List.insertionSort leagueFirstLE xs := by
      apply sorted_perm_eq_of_distinct_sortKey
      · exact (List.perm_insertionSort leagueFirstLE ys).trans
          (hperm.trans (List.perm_insertionSort leagueFirstLE xs).symm)
      · exact List.sorted_insertionSort leagueFirstLE ys
      · exact List.sorted_insertionSort leagueFirstLE xs
      · exact (((List.perm_insertionSort leagueFirstLE ys).trans hperm).pairwise_iff
          hsym).mpr hdist
    rw [h1]

/-- Witness for C5 at three records with pairwise distinct sort keys. -/
theorem dedupe_sorted_and_order_independent_witness :
    (dedupe_games [gLeague, gTourn, gEarly]).Pairwise whenLE ∧
    [gTourn, gEarly, gLeague].Perm [gLeague, gTourn, gEarly] ∧
    dedupe_games [gTourn, gEarly, gLeague] = dedupe_games [gLeague, gTourn, gEarly] :=
  ⟨(dedupe_sorted_and_order_independent [gLeague, gTourn, gEarly]
     [gTourn, gEarly, gLeague]).1,
   by decide,
   (dedupe_sorted_and_order_independent [gLeague, gTourn, gEarly]
     [gTourn, gEarly, gLeague]).2 (by decide) (by decide)⟩

/-- C9: for every configuration whose season start or end date is absent or
fails to parse as a `YYYY-MM-DD` date, practice generation returns the empty
list (the model is total, so no exception can be raised). -/
theorem no_season_yields_no_practices (config : Config)
    (team_key team_name short_name : String) (team_games : List (Option Nat))
    (h : (parse_season_dates config).1 = none ∨ (parse_season_dates config).2 = none) :
    generate_practice_events config team_key team_name short_name team_games = [] := by
  unfold generate_practice_events
  cases hl : lookupD config.practices team_key with
  | none => rfl
  | some tp =>
    rcases hp : parse_season_dates config with ⟨o1, o2⟩
    rw [hp] at h
    have h2 : o1 = none ∨ o2 = none := h
    rcases h2 with h2 | h2 <;> subst h2
    · cases o2 <;> rfl
    · cases o1 <;> rfl

/-- Witness for C9 at a concrete config whose start date is `"soon"`. -/
theorem no_season_yields_no_practices_witness :
    ((parse_season_dates cfgBadSeason).1 = none ∨ (parse_season_dates cfgBadSeason).2 = none) ∧
    generate_practice_events cfgBadSeason "5-M-Red" "Grade 5 Red" "5B-Red" [] = [] :=
  ⟨Or.inl (by decide),
   no_season_yields_no_practices cfgBadSeason "5-M-Red" "Grade 5 Red" "5B-Red" []
     (Or.inl (by decide))⟩

/-- C2: a single-date `modify` entry must override only that occurrence; on
`cfgModBleed` (rule: Mondays 18:00 at `Gym A`; modification: 2025-01-06 only,
location `Gym B`) the code instead reports `Gym B` for the later Mondays
2025-01-13 and 2025-01-20 as well, because the loop variables are overwritten
and never restored. -/
theorem modify_overlay_bleeds_into_later_weeks :
    (generate_practice_events cfgModBleed "5-M-Red" "Grade 5 Red" "5B-Red" []).map
      (fun e => (formatYMD (e.datetime / 86400), e.datetime % 86400, e.location)) =
      [("2025-01-06", 64800, "Gym B"), ("2025-01-13", 64800, "Gym B"),
       ("2025-01-20", 64800, "Gym B")] := by
  decide

/-- C7: the conflict test is exactly padded-interval overlap, and on the
concrete scenario (game 2025-01-13 17:30, Monday-18:00 rule, ad-hoc practice
at 20:00 that day) the 18:00 practice is skipped while the 20:00 one is
emitted. -/
theorem conflict_iff_padded_overlap :
    (∀ (team_games : List (Option Nat)) (practice_dt duration : Nat),
      conflicts_with_game team_games practice_dt duration = true ↔
        ∃ game_dt, some game_dt ∈ team_games ∧
          paddedConflictSpec game_dt practice_dt duration) ∧
    (generate_practice_events cfgConflict "5-M-Red" "Grade 5 Red" "5B-Red"
        [some gameJan13at1730]).map
      (fun e => (formatYMD (e.datetime / 86400), e.datetime % 86400)) =
      [("2025-01-06", 64800), ("2025-01-20", 64800), ("2025-01-13", 72000)] := by
  constructor
  · intro tg p dur
    unfold conflicts_with_game
    rw [List.any_eq_true]
    constructor
    · rintro ⟨x, hx, hpx⟩
      cases x with
      | none => simp at hpx
      | some g =>
        refine ⟨g, hx, ?_⟩
        simp only [decide_eq_true_eq] at hpx
        unfold paddedConflictSpec intervalsOverlap
        push_cast at hpx ⊢
        omega
    · rintro ⟨g, hg, hov⟩
      refine ⟨some g, hg, ?_⟩
      simp only [decide_eq_true_eq]
      unfold paddedConflictSpec intervalsOverlap at hov
      push_cast at hov ⊢
      omega
  · decide

/-- C4 counterexample: `game_to_key` does not use `normalize_opponent` —
`"Stoughton 5B D1"` and `"Stoughton D1"` normalize identically yet get
different keys, and the change detector reports a deleted + new pair with
nothing modified. -/
theorem key_ignores_normalization_cex :
    normalize_opponent "Stoughton 5B D1" = normalize_opponent "Stoughton D1" ∧
    game_to_key gPrevNorm ≠ game_to_key gCurrNorm ∧
    (detect_changes (snapshotOf gPrevNorm) [gCurrNorm] []).modified = [] ∧
    (detect_changes (snapshotOf gPrevNorm) [gCurrNorm] []).new.map
      (fun e => e.event) = [some gCurrNorm] ∧
    (detect_changes (snapshotOf gPrevNorm) [gCurrNorm] []).deleted.map
      (fun e => e.previous) = [some (game_to_state gPrevNorm)] := by
  decide

/-- C4 (amended): the change-detector key matches on team identity, calendar
date and the lower-cased *trimmed* opponent (not the fully normalized one);
two events agreeing on those get the same key, and with the first stored in
the snapshot the second is neither `new` nor `deleted`. -/
theorem game_to_key_matches_on_trimmed_opponent (g1 g2 : GameDict)
    (hgr : g1.grade = g2.grade) (hge : g1.gender = g2.gender) (hco : g1.color = g2.color)
    (hdt : g1.datetime.map (fun dt => dt / 86400) = g2.datetime.map (fun dt => dt / 86400))
    (hopp : stripChars ((g1.opponent.getD "TBD").data.map Char.toLower) =
            stripChars ((g2.opponent.getD "TBD").data.map Char.toLower)) :
    game_to_key g1 = game_to_key g2 ∧
    (detect_changes (snapshotOf g1) [g2] []).new = [] ∧
    (detect_changes (snapshotOf g1) [g2] []).deleted = [] := by
  have hkey : game_to_key g1 = game_to_key g2 := by
    unfold game_to_key
    rw [hgr, hge, hco, hopp]
    cases h1 : g1.datetime with
    | none =>
      cases h2 : g2.datetime with
      | none => rfl
      | some d2 => rw [h1, h2] at hdt; simp at hdt
    | some d1 =>
      cases h2 : g2.datetime with
      | none => rw [h1, h2] at hdt; simp at hdt
      | some d2 =>
        rw [h1, h2] at hdt
        simp at hdt
        simp [hdt]
  refine ⟨hkey, ?_, ?_⟩
  · simp [detect_changes, snapshotOf, buildDict, upsert, newModEntries, deletedEntries,
      lookupD, List.find?, hkey, beq_self_eq_true]
    split <;> simp
  · simp [detect_changes, snapshotOf, buildDict, upsert, newModEntries, deletedEntries,
      lookupD, hasKeyD, List.find?, hkey, beq_self_eq_true]

/-- Witness for the amended C4: `"  STOUGHTON "` and `"Stoughton"` agree
after lower+strip, so the two events share a key and neither a new nor a
deleted entry is produced. -/
theorem game_to_key_matches_on_trimmed_opponent_witness :
    game_to_key gAt18 = game_to_key gOppSpaced ∧
    (detect_changes (snapshotOf gAt18) [gOppSpaced] []).new = [] ∧
    (detect_changes (snapshotOf gAt18) [gOppSpaced] []).deleted = [] :=
  game_to_key_matches_on_trimmed_opponent gAt18 gOppSpaced (by decide) (by decide)
    (by decide) (by decide) (by decide)

theorem lookupD_cons (a : String) (b : α) (m : List (String × α)) (k : String) :
    lookupD ((a, b) :: m) k = if a = k then some b else lookupD m k := by
  by_cases h : a = k
  · subst h; simp [lookupD, List.find?]
  · have hb : (a == k) = false := beq_eq_false_iff_ne.mpr h
    simp [lookupD, List.find?, hb, h]

theorem lookupD_upsert (m : List (String × α)) (k' k : String) (v' : α) :
    lookupD (upsert m k' v') k = if k = k' then some v' else lookupD m k := by
  induction m with
  | nil =>
    rw [show upsert ([] : List (String × α)) k' v' = [(k', v')] from rfl, lookupD_cons]
    by_cases h : k = k'
    · subst h; simp
    · rw [if_neg (fun h2 => h h2.symm), if_neg h]
  | cons p m ih =>
    obtain ⟨pk, pv⟩ := p
    by_cases h1 : pk = k'
    · subst h1
      rw [show upsert ((pk, pv) :: m) pk v' = (pk, v') :: m from by simp [upsert],
        lookupD_cons, lookupD_cons]
      by_cases h2 : k = pk
      · rw [if_pos h2.symm, if_pos h2]
      · rw [if_neg (fun h3 => h2 h3.symm), if_neg h2,
          if_neg (fun h3 => h2 h3.symm)]
    · rw [show upsert ((pk, pv) :: m) k' v' = (pk, pv) :: upsert m k' v' from by
          simp [upsert, h1],
        lookupD_cons, ih, lookupD_cons]
      by_cases h2 : pk = k
      · have h3 : ¬k = k' := fun h4 => h1 (h2.symm ▸ h4)
        rw [if_pos h2, if_neg h3, if_pos h2]
      · rw [if_neg h2]
        by_cases h4 : k = k'
        · rw [if_pos h4, if_pos h4]
        · rw [if_neg h4, if_neg h4, if_neg h2]

theorem lookupD_foldl_some (f : α → String) (l : List α) :
    ∀ (m : List (String × α)) (k : String) (v : α),
      lookupD (l.foldl (fun acc x => upsert acc (f x) x) m) k = some v →
      lookupD m k = some v ∨ (v ∈ l ∧ f v = k) := by
  induction l with
  | nil => intro m k v h; exact Or.inl h
  | cons x l ih =>
    intro m k v h
    rcases ih _ k v h with h2 | h2
    · rw [lookupD_upsert] at h2
      by_cases hk : k = f x
      · rw [if_pos hk] at h2
        have hv : x = v := by injection h2
        exact Or.inr ⟨hv ▸ List.mem_cons_self x l, by rw [← hv, hk]⟩
      · rw [if_neg hk] at h2
        exact Or.inl h2
    · exact Or.inr ⟨List.mem_cons_of_mem _ h2.1, h2.2⟩

theorem lookupD_foldl_none (f : α → String) (l : List α) :
    ∀ (m : List (String × α)) (k : String),
      lookupD (l.foldl (fun acc x => upsert acc (f x) x) m) k = none →
      lookupD m k = none ∧ ∀ x ∈ l, f x ≠ k := by
  induction l with
  | nil => intro m k h; exact ⟨h, by simp⟩
  | cons x l ih =>
    intro m k h
    rcases ih _ k h with ⟨h1, h2⟩
    rw [lookupD_upsert] at h1
    by_cases hk : k = f x
    · rw [if_pos hk] at h1; exact absurd h1 (by simp)
    · rw [if_neg hk] at h1
      refine ⟨h1, fun y hy => ?_⟩
      rcases List.mem_cons.mp hy with rfl | hy2
      · exact fun h3 => hk h3.symm
      · exact h2 y hy2

/-- With a unique key among the current records, the dict maps that key to
the record itself. -/
theorem lookupD_buildDict_of_unique (f : α → String) (l : List α) (g : α)
    (hg : g ∈ l) (huniq : ∀ y ∈ l, f y = f g → y = g) :
    lookupD (buildDict f l) (f g) = some g := by
  cases h : lookupD (buildDict f l) (f g) with
  | none =>
    exact absurd rfl ((lookupD_foldl_none f l [] (f g) h).2 g hg)
  | some v =>
    rcases lookupD_foldl_some f l [] (f g) v h with h2 | h2
    · simp [lookupD, List.find?] at h2
    · rw [huniq v h2.1 h2.2]

theorem mem_of_lookupD (m : List (String × α)) (k : String) (v : α)
    (h : lookupD m k = some v) : (k, v) ∈ m := by
  unfold lookupD at h
  cases hf : m.find? (fun p => p.1 == k) with
  | none => rw [hf] at h; simp at h
  | some q =>
    rw [hf] at h
    have hq : q ∈ m := List.mem_of_find?_eq_some hf
    have hqk : q.1 = k := by
      have := List.find?_some hf
      simpa using this
    have hqv : q.2 = v := by simpa using h
    have : q = (k, v) := by
      obtain ⟨q1, q2⟩ := q
      simp at hqk hqv
      rw [hqk, hqv]
    exact this ▸ hq

theorem hasKeyD_of_lookupD (m : List (String × α)) (k : String) (v : α)
    (h : lookupD m k = some v) : hasKeyD m k = true := by
  unfold hasKeyD
  rw [List.any_eq_true]
  refine ⟨(k, v), mem_of_lookupD m k v h, by simp⟩

/-- Every pair of `buildDict f l` has its key determined by its value. -/
theorem buildDict_key_eq (f : α → String) (l : List α) :
    ∀ p ∈ buildDict f l, p.1 = f p.2 := by
  have hup : ∀ (m : List (String × α)) (v : α), (∀ p ∈ m, p.1 = f p.2) →
      ∀ p ∈ upsert m (f v) v, p.1 = f p.2 := by
    intro m v hm
    induction m with
    | nil => intro p hp; simp [upsert] at hp; rw [hp]
    | cons q m ih =>
      intro p hp
      obtain ⟨qk, qv⟩ := q
      simp only [upsert] at hp
      by_cases hq : qk = f v
      · rw [if_pos hq] at hp
        rcases List.mem_cons.mp hp with rfl | hp2
        · simpa using hq
        · exact hm p (List.mem_cons_of_mem _ hp2)
      · rw [if_neg hq] at hp
        rcases List.mem_cons.mp hp with rfl | hp2
        · exact hm (qk, qv) (List.mem_cons_self _ _)
        · exact ih (fun p2 hp2b => hm p2 (List.mem_cons_of_mem _ hp2b)) p hp2
  have hfold : ∀ (l2 : List α) (m : List (String × α)), (∀ p ∈ m, p.1 = f p.2) →
      ∀ p ∈ l2.foldl (fun acc x => upsert acc (f x) x) m, p.1 = f p.2 := by
    intro l2
    induction l2 with
    | nil => intro m hm; exact hm
    | cons x l2 ih => intro m hm; exact ih _ (hup m x hm)
  exact hfold l [] (by simp)

/-- Structural equation: the `new` component over a cons. -/
theorem newModEntries_cons_fst (tl : String) (prev : List (String × GameState))
    (k : String) (game : GameDict) (rest : List (String × GameDict)) :
    (newModEntries tl prev ((k, game) :: rest)).1 =
      match lookupD prev k with
      | none =>
        { type := tl, team_key := teamKeyOf game, event := some game,
          previous := none, time_changed := false, location_changed := false } ::
          (newModEntries tl prev rest).1
      | some _ => (newModEntries tl prev rest).1 := by
  simp only [newModEntries]
  cases lookupD prev k
  · rfl
  · dsimp only
    split <;> rfl

/-- Structural equation: the `modified` component over a cons. -/
theorem newModEntries_cons_snd (tl : String) (prev : List (String × GameState))
    (k : String) (game : GameDict) (rest : List (String × GameDict)) :
    (newModEntries tl prev ((k, game) :: rest)).2 =
      match lookupD prev k with
      | none => (newModEntries tl prev rest).2
      | some p =>
        if (decide (p.datetime ≠ (game_to_state game).datetime) ||
            decide (p.location ≠ (game_to_state game).location)) = true then
          { type := tl, team_key := teamKeyOf game, event := some game,
            previous := some p,
            time_changed := decide (p.datetime ≠ (game_to_state game).datetime),
            location_changed := decide (p.location ≠ (game_to_state game).location) } ::
            (newModEntries tl prev rest).2
        else (newModEntries tl prev rest).2 := by
  simp only [newModEntries]
  cases lookupD prev k
  · rfl
  · dsimp only
    split
    · simp_all
    · simp_all

/-- Every change entry produced by `newModEntries`/`deletedEntries` carries
its namespace label. -/
theorem newModEntries_type (tl : String) (prev : List (String × GameState)) :
    ∀ curr, (∀ e ∈ (newModEntries tl prev curr).1, e.type = tl) ∧
      (∀ e ∈ (newModEntries tl prev curr).2, e.type = tl) := by
  intro curr
  induction curr with
  | nil => simp [newModEntries]
  | cons p rest ih =>
    obtain ⟨k, game⟩ := p
    rw [show (newModEntries tl prev ((k, game) :: rest)).1 = _ from
      newModEntries_cons_fst tl prev k game rest]
    constructor
    · cases lookupD prev k with
      | none =>
        intro e he
        rcases List.mem_cons.mp he with rfl | he2
        · rfl
        · exact ih.1 e he2
      | some p2 => exact ih.1
    · rw [newModEntries_cons_snd]
      cases lookupD prev k with
      | none => exact ih.2
      | some p2 =>
        intro e he
        dsimp only at he
        by_cases hc : (decide (p2.datetime ≠ (game_to_state game).datetime) ||
            decide (p2.location ≠ (game_to_state game).location)) = true
        · rw [if_pos hc] at he
          rcases List.mem_cons.mp he with rfl | he2
          · rfl
          · exact ih.2 e he2
        · rw [if_neg hc] at he
          exact ih.2 e he

theorem deletedEntries_type (tl : String) (curr : List (String × GameDict)) :
    ∀ prevl, ∀ e ∈ deletedEntries tl curr prevl, e.type = tl := by
  intro prevl
  induction prevl with
  | nil => simp [deletedEntries]
  | cons p rest ih =>
    obtain ⟨k, ps⟩ := p
    intro e he
    simp only [deletedEntries] at he
    split at he
    · exact ih e he
    · rcases List.mem_cons.mp he with rfl | he2
      · rfl
      · exact ih e he2

/-- A current record whose key is stored in the previous snapshot with a
different datetime string yields a modified entry flagged `time_changed`. -/
theorem newModEntries_modified_mem (tl : String) (prev : List (String × GameState)) :
    ∀ (curr : List (String × GameDict)) (k : String) (g : GameDict) (p : GameState),
      (k, g) ∈ curr → lookupD prev k = some p →
      p.datetime ≠ (game_to_state g).datetime →
      ∃ e ∈ (newModEntries tl prev curr).2,
        e.type = tl ∧ e.event = some g ∧ e.time_changed = true := by
  intro curr
  induction curr with
  | nil => intro k g p h; simp at h
  | cons q rest ih =>
    intro k g p hmem hlook hne
    obtain ⟨qk, qg⟩ := q
    rw [newModEntries_cons_snd]
    rcases List.mem_cons.mp hmem with heq | hmem2
    · rw [Prod.mk.injEq] at heq
      obtain ⟨rfl, rfl⟩ := heq
      rw [hlook]
      dsimp only
      rw [if_pos (by simp [hne])]
      exact ⟨_, List.mem_cons_self _ _, rfl, rfl, by simp [hne]⟩
    · rcases ih k g p hmem2 hlook hne with ⟨e, he, hprops⟩
      cases lookupD prev qk with
      | none => exact ⟨e, he, hprops⟩
      | some p2 =>
        dsimp only
        by_cases hc : (decide (p2.datetime ≠ (game_to_state qg).datetime) ||
            decide (p2.location ≠ (game_to_state qg).location)) = true
        · rw [if_pos hc]
          exact ⟨e, List.mem_cons_of_mem _ he, hprops⟩
        · rw [if_neg hc]
          exact ⟨e, he, hprops⟩

/-- Every `new` entry comes from a current pair whose key misses the
previous snapshot. -/
theorem newModEntries_new_mem (tl : String) (prev : List (String × GameState)) :
    ∀ curr, ∀ e ∈ (newModEntries tl prev curr).1,
      ∃ k gd, (k, gd) ∈ curr ∧ e.event = some gd ∧ lookupD prev k = none := by
  intro curr
  induction curr with
  | nil => simp [newModEntries]
  | cons q rest ih =>
    obtain ⟨qk, qg⟩ := q
    intro e he
    rw [newModEntries_cons_fst] at he
    cases hq : lookupD prev qk with
    | none =>
      rw [hq] at he
      rcases List.mem_cons.mp he with rfl | he2
      · exact ⟨qk, qg, List.mem_cons_self _ _, rfl, hq⟩
      · rcases ih e he2 with ⟨k, gd, hk, hev, hl⟩
        exact ⟨k, gd, List.mem_cons_of_mem _ hk, hev, hl⟩
    | some p2 =>
      rw [hq] at he
      rcases ih e he with ⟨k, gd, hk, hev, hl⟩
      exact ⟨k, gd, List.mem_cons_of_mem _ hk, hev, hl⟩

/-- Every `deleted` entry comes from a previous pair whose key misses the
current dict. -/
theorem deletedEntries_mem (tl : String) (curr : List (String × GameDict)) :
    ∀ prevl, ∀ e ∈ deletedEntries tl curr prevl,
      ∃ kp, kp ∈ prevl ∧ e.previous = some kp.2 ∧ hasKeyD curr kp.1 = false := by
  intro prevl
  induction prevl with
  | nil => simp [deletedEntries]
  | cons q rest ih =>
    obtain ⟨qk, qp⟩ := q
    intro e he
    simp only [deletedEntries] at he
    split at he
    · rcases ih e he with ⟨kp, h1, h2, h3⟩
      exact ⟨kp, List.mem_cons_of_mem _ h1, h2, h3⟩
    · rcases List.mem_cons.mp he with rfl | he2
      · refine ⟨(qk, qp), List.mem_cons_self _ _, rfl, by simp_all⟩
      · rcases ih e he2 with ⟨kp, h1, h2, h3⟩
        exact ⟨kp, List.mem_cons_of_mem _ h1, h2, h3⟩

theorem digitChar_inj10 : ∀ a : Nat, a < 10 → ∀ b : Nat, b < 10 →
    Nat.digitChar a = Nat.digitChar b → a = b := by
  decide

theorem pad2_inj100 (a b : Nat) (ha : a < 100) (hb : b < 100)
    (h : pad2 a = pad2 b) : a = b := by
  have hdata : (pad2 a).data = (pad2 b).data := congrArg String.data h
  simp only [pad2] at hdata
  rw [List.cons.injEq, List.cons.injEq] at hdata
  have h1 := digitChar_inj10 _ (by omega) _ (by omega) hdata.1
  have h2 := digitChar_inj10 _ (by omega) _ (by omega) hdata.2.1
  omega

/-- `isoformat` distinguishes two distinct instants on the same day (their
time-of-day digits differ). -/
theorem isoformatEastern_inj_same_day (d1 d2 : Nat)
    (hday : d1 / 86400 = d2 / 86400)
    (h : isoformatEastern d1 = isoformatEastern d2) : d1 = d2 := by
  have hdata : (isoformatEastern d1).data = (isoformatEastern d2).data :=
    congrArg String.data h
  unfold isoformatEastern at hdata
  rw [hday] at hdata
  simp only [String.data_append, List.append_assoc] at hdata
  have hrest := List.append_cancel_left hdata
  simp only [pad2, String.data] at hrest
  simp only [List.cons_append, List.nil_append, List.cons.injEq] at hrest
  obtain ⟨-, e1, e2, -, e3, e4, -, e5, e6, -⟩ := hrest
  have hh := digitChar_inj10 _ (by omega) _ (by omega) e1
  have hh2 := digitChar_inj10 _ (by omega) _ (by omega) e2
  have hm := digitChar_inj10 _ (by omega) _ (by omega) e3
  have hm2 := digitChar_inj10 _ (by omega) _ (by omega) e4
  have hs := digitChar_inj10 _ (by omega) _ (by omega) e5
  have hs2 := digitChar_inj10 _ (by omega) _ (by omega) e6
  omega

/-- C3: an event whose key is stored in the previous snapshot with the same
calendar date but a different time-of-day is reported as `modified` with
`time_changed = true`, and appears in neither the `new` nor the `deleted`
bucket. -/
theorem time_change_is_modified_not_new_or_deleted
    (prev : PrevState) (cur_games cur_practices : List GameDict)
    (g : GameDict) (ps : GameState) (d1 d2 : Nat)
    (hmem : g ∈ cur_games)
    (huniq : ∀ g2 ∈ cur_games, game_to_key g2 = game_to_key g → g2 = g)
    (hlook : lookupD prev.games (game_to_key g) = some ps)
    (hps : ps.datetime = some (isoformatEastern d1))
    (hg : g.datetime = some d2)
    (hday : d1 / 86400 = d2 / 86400) (hne : d1 ≠ d2)
    (hpuniq : ∀ kp ∈ prev.games, kp.2 = ps → kp.1 = game_to_key g) :
    (∃ e ∈ (detect_changes prev cur_games cur_practices).modified,
        e.type = "game" ∧ e.event = some g ∧ e.time_changed = true) ∧
    (∀ e ∈ (detect_changes prev cur_games cur_practices).new,
        e.type = "game" → e.event ≠ some g) ∧
    (∀ e ∈ (detect_changes prev cur_games cur_practices).deleted,
        e.type = "game" → e.previous ≠ some ps) := by
  have hsdt : ps.datetime ≠ (game_to_state g).datetime := by
    rw [hps]
    unfold game_to_state
    rw [hg]
    simp only [Option.map_some']
    intro hcontra
    rw [Option.some.injEq] at hcontra
    exact hne (isoformatEastern_inj_same_day d1 d2 hday hcontra)
  have hdict : lookupD (buildDict game_to_key cur_games) (game_to_key g) = some g :=
    lookupD_buildDict_of_unique game_to_key cur_games g hmem huniq
  have hdictmem : (game_to_key g, g) ∈ buildDict game_to_key cur_games :=
    mem_of_lookupD _ _ _ hdict
  unfold detect_changes
  refine ⟨?_, ?_, ?_⟩
  · rcases newModEntries_modified_mem "game" prev.games
        (buildDict game_to_key cur_games) (game_to_key g) g ps hdictmem hlook hsdt with
      ⟨e, he, hprops⟩
    exact ⟨e, List.mem_append_left _ he, hprops⟩
  · intro e he htype hev
    rcases List.mem_append.mp he with he2 | he2
    · rcases newModEntries_new_mem "game" prev.games _ e he2 with ⟨k, gd, hk, hev2, hl⟩
      rw [hev2] at hev
      rw [Option.some.injEq] at hev
      subst hev
      have : k = game_to_key gd := buildDict_key_eq game_to_key cur_games _ hk
      rw [this] at hl
      rw [hl] at hlook
      exact Option.noConfusion hlook
    · have := (newModEntries_type "practice" prev.practices _).1 e he2
      rw [this] at htype
      exact absurd htype (by decide)
  · intro e he htype hprevv
    rcases List.mem_append.mp he with he2 | he2
    · rcases deletedEntries_mem "game" _ _ e he2 with ⟨kp, h1, h2, h3⟩
      rw [hprevv] at h2
      rw [Option.some.injEq] at h2
      have hkp : kp.1 = game_to_key g := hpuniq kp h1 h2.symm
      rw [hkp] at h3
      rw [hasKeyD_of_lookupD _ _ _ hdict] at h3
      exact Bool.noConfusion h3
    · have := deletedEntries_type "practice" _ _ e he2
      rw [this] at htype
      exact absurd htype (by decide)

/-- Witness for C3: the 18:00 snapshot against the 19:00 current event. -/
theorem time_change_is_modified_witness :
    (∃ e ∈ (detect_changes (snapshotOf gAt18) [gAt19] []).modified,
        e.type = "game" ∧ e.event = some gAt19 ∧ e.time_changed = true) ∧
    (∀ e ∈ (detect_changes (snapshotOf gAt18) [gAt19] []).new,
        e.type = "game" → e.event ≠ some gAt19) ∧
    (∀ e ∈ (detect_changes (snapshotOf gAt18) [gAt19] []).deleted,
        e.type = "game" → e.previous ≠ some (game_to_state gAt18)) :=
  time_change_is_modified_not_new_or_deleted (snapshotOf gAt18) [gAt19] []
    gAt19 (game_to_state gAt18) (toDayNumber 2025 12 7 * 86400 + 64800)
    (toDayNumber 2025 12 7 * 86400 + 68400)
    (by decide) (by decide) (by decide) (by decide) (by decide) (by decide)
    (by decide) (by decide)

theorem mkPracticeEvent_datetime (tk tn sn : String) (dt dur : Nat) (loc nts : String) :
    (mkPracticeEvent tk tn sn dt dur loc nts).datetime = dt := rfl

/-- One unfolding step of the weekly loop when there are no modifications and
no games (the conflict check on an empty game list is `false`). -/
theorem recurLoop_nil_step (send : Nat) (blk : List (Nat × Nat × String))
    (tk tn sn : String) (fuel current duration : Nat) (loc nts : String) :
    recurLoop send [] blk [] tk tn sn (fuel + 1) current duration loc nts =
      if current ≤ send then
        (if (is_blackout_date current blk).isSome then
          recurLoop send [] blk [] tk tn sn fuel (current + 604800) duration loc nts
        else
          mkPracticeEvent tk tn sn current duration loc nts ::
            recurLoop send [] blk [] tk tn sn fuel (current + 604800) duration loc nts)
      else [] := by
  rfl

/-- The datetimes emitted by the no-modification, no-game weekly loop are
exactly the weekly offsets from `current` that fit the fuel, lie within the
season end, and avoid every blackout. -/
theorem recurLoop_noMods_datetimes (send : Nat) (blk : List (Nat × Nat × String))
    (tk tn sn : String) :
    ∀ (fuel current duration : Nat) (loc nts : String) (dt : Nat),
      dt ∈ (recurLoop send [] blk [] tk tn sn fuel current duration loc nts).map
        (fun e => e.datetime) ↔
      ∃ j < fuel, dt = current + j * 604800 ∧ dt ≤ send ∧
        is_blackout_date dt blk = none := by
  intro fuel
  induction fuel with
  | zero =>
    intro current duration loc nts dt
    simp [recurLoop]
  | succ fuel ih =>
    intro current duration loc nts dt
    rw [recurLoop_nil_step]
    by_cases hcur : current ≤ send
    · rw [if_pos hcur]
      by_cases hb : (is_blackout_date current blk).isSome
      · rw [if_pos hb]
        rw [ih]
        constructor
        · rintro ⟨j, hj, rfl, hle, hbo⟩
          exact ⟨j + 1, by omega, by ring_nf, hle, hbo⟩
        · rintro ⟨j, hj, hdt, hle, hbo⟩
          cases j with
          | zero =>
            exfalso
            simp only [Nat.zero_mul, Nat.add_zero] at hdt
            rw [hdt] at hbo
            rw [hbo] at hb
            simp at hb
          | succ j =>
            exact ⟨j, by omega, by omega, hle, hbo⟩
      · have hbnone : is_blackout_date current blk = none := by
          cases h2 : is_blackout_date current blk
          · rfl
          · rw [h2] at hb; simp at hb
        rw [if_neg hb]
        simp only [List.map_cons, List.mem_cons, mkPracticeEvent_datetime]
        rw [ih]
        constructor
        · rintro (rfl | ⟨j, hj, rfl, hle, hbo⟩)
          · exact ⟨0, by omega, by omega, hcur, hbnone⟩
          · exact ⟨j + 1, by omega, by ring_nf, hle, hbo⟩
        · rintro ⟨j, hj, hdt, hle, hbo⟩
          cases j with
          | zero =>
            left
            omega
          | succ j =>
            right
            exact ⟨j, by omega, by omega, hle, hbo⟩
    · rw [if_neg hcur]
      simp only [List.map_nil, List.not_mem_nil, false_iff]
      rintro ⟨j, hj, hdt, hle, hbo⟩
      omega

/-- Unfolding `generate_practice_events` on a one-rule config with parsable
season bounds, weekday, and time. -/
theorem generate_oneRule_eq (ss es : String) (sd ed : Nat) (bl : List BlackoutCfg)
    (tk tn sn : String) (r : RecurringRule) (w h m : Nat)
    (hss : parseYMD ss = some sd) (hes : parseYMD es = some ed)
    (hw : lookupDay (String.mk ((r.day.getD "").data.map Char.toLower)) = some w)
    (hhm : parseTimeHM (r.time.getD "18:00") = some (h, m)) :
    generate_practice_events (cfgOneRule ss es bl tk r []) tk tn sn [] =
      recurLoop (ed * 86400 + 86399) []
        (parse_blackout_dates (cfgOneRule ss es bl tk r [])) [] tk tn sn
        ((ed * 86400 + 86399) / 604800 + 2) (firstOccurrence (sd * 86400) w h m)
        (r.duration.getD 60) (r.location.getD "") (r.notes.getD "") := by
  have hssne : ss ≠ "" := fun hemp => by rw [hemp] at hss; exact Option.noConfusion hss
  have hesne : es ≠ "" := fun hemp => by rw [hemp] at hes; exact Option.noConfusion hes
  unfold generate_practice_events
  rw [show lookupD (cfgOneRule ss es bl tk r []).practices tk =
      some { recurring := [r], adhoc := [], modifications := [] } from by
    simp [cfgOneRule, lookupD_cons]]
  rw [show parse_season_dates (cfgOneRule ss es bl tk r []) =
      (some (sd * 86400), some (ed * 86400 + 86399)) from by
    simp [cfgOneRule, parse_season_dates, hss, hes, hssne, hesne]]
  simp only [List.map_cons, List.map_nil, List.flatten_cons, List.flatten_nil,
    List.append_nil]
  rw [show adhocEvents (sd * 86400) (ed * 86400 + 86399) [] tk tn sn [] = [] from rfl,
    List.append_nil]
  simp only [recurRuleEvents, hw, hhm]

/-- C8: with one recurring rule, no modifications and no games, a weekly
occurrence inside a blackout produces no event while one outside every
blackout is produced; an ad-hoc practice inside a blackout is still emitted
when it lies in the season window. -/
theorem blackout_skips_recurring_not_adhoc (ss es : String) (sd ed : Nat)
    (bl : List BlackoutCfg) (tk tn sn : String) (r : RecurringRule) (w h m : Nat)
    (hss : parseYMD ss = some sd) (hes : parseYMD es = some ed)
    (hw : lookupDay (String.mk ((r.day.getD "").data.map Char.toLower)) = some w)
    (hhm : parseTimeHM (r.time.getD "18:00") = some (h, m))
    (a : AdhocEntry) (adate : String) (ad ah am : Nat)
    (hadate : a.date = some adate) (hadp : parseYMD adate = some ad)
    (hatime : parseTimeHM (a.time.getD "18:00") = some (ah, am))
    (hahr : ah ≤ 23) (hamin : am ≤ 59) (k : Nat) :
    ((firstOccurrence (sd * 86400) w h m + k * 604800 ≤ ed * 86400 + 86399 →
      (is_blackout_date (firstOccurrence (sd * 86400) w h m + k * 604800)
        (parse_blackout_dates (cfgOneRule ss es bl tk r []))).isSome →
      firstOccurrence (sd * 86400) w h m + k * 604800 ∉
        (generate_practice_events (cfgOneRule ss es bl tk r []) tk tn sn []).map
          (fun e => e.datetime)) ∧
    (firstOccurrence (sd * 86400) w h m + k * 604800 ≤ ed * 86400 + 86399 →
      is_blackout_date (firstOccurrence (sd * 86400) w h m + k * 604800)
        (parse_blackout_dates (cfgOneRule ss es bl tk r [])) = none →
      firstOccurrence (sd * 86400) w h m + k * 604800 ∈
        (generate_practice_events (cfgOneRule ss es bl tk r []) tk tn sn []).map
          (fun e => e.datetime))) ∧
    ((is_blackout_date (ad * 86400 + ah * 3600 + am * 60)
        (parse_blackout_dates (cfgOneAdhoc ss es bl tk a))).isSome →
      sd * 86400 ≤ ad * 86400 + ah * 3600 + am * 60 →
      ad * 86400 + ah * 3600 + am * 60 ≤ ed * 86400 + 86399 →
      ad * 86400 + ah * 3600 + am * 60 ∈
        (generate_practice_events (cfgOneAdhoc ss es bl tk a) tk tn sn []).map
          (fun e => e.datetime)) := by
  have hgen := generate_oneRule_eq ss es sd ed bl tk tn sn r w h m hss hes hw hhm
  constructor
  · constructor
    · intro hle hbs hmem
      rw [hgen, recurLoop_noMods_datetimes] at hmem
      rcases hmem with ⟨j, hj, hdt, hle2, hbo⟩
      have hjk : j = k := by omega
      rw [hjk] at hdt
      rw [show firstOccurrence (sd * 86400) w h m + k * 604800 =
        firstOccurrence (sd * 86400) w h m + k * 604800 from rfl] at hbs
      rw [← hdt] at hbs
      rw [hbo] at hbs
      simp at hbs
    · intro hle hbo
      rw [hgen, recurLoop_noMods_datetimes]
      exact ⟨k, by omega, rfl, hle, hbo⟩
  · intro hbs hge hle
    have hadne : adate ≠ "" := fun hemp => by rw [hemp] at hadp; exact Option.noConfusion hadp
    have hssne : ss ≠ "" := fun hemp => by rw [hemp] at hss; exact Option.noConfusion hss
    have hesne : es ≠ "" := fun hemp => by rw [hemp] at hes; exact Option.noConfusion hes
    unfold generate_practice_events
    rw [show lookupD (cfgOneAdhoc ss es bl tk a).practices tk =
        some { recurring := [], adhoc := [a], modifications := [] } from by
      simp [cfgOneAdhoc, lookupD_cons]]
    rw [show parse_season_dates (cfgOneAdhoc ss es bl tk a) =
        (some (sd * 86400), some (ed * 86400 + 86399)) from by
      simp [cfgOneAdhoc, parse_season_dates, hss, hes, hssne, hesne]]
    simp only [List.map_nil, List.flatten_nil, List.nil_append]
    unfold adhocEvents
    simp only [List.foldr_cons, List.foldr_nil]
    rw [hadate]
    dsimp only
    rw [if_neg hadne, hatime]
    dsimp only
    rw [if_pos ⟨hahr, hamin⟩, hadp]
    dsimp only
    rw [if_pos ⟨hge, hle⟩,
      show conflicts_with_game [] (ad * 86400 + ah * 3600 + am * 60)
        (a.duration.getD 60) = false from rfl]
    simp [mkPracticeEvent_datetime]

/-- Witness for C8: blackout week 2025-01-13 is absent (k = 1), the Monday
after it is present (k = 2), and the ad-hoc practice inside the blackout is
emitted. -/
theorem blackout_skips_recurring_not_adhoc_witness :
    (firstOccurrence (toDayNumber 2025 1 6 * 86400) 0 18 0 + 1 * 604800 ∉
      (generate_practice_events
        (cfgOneRule "2025-01-06" "2025-01-20" blackoutJan13 "5-M-Red" ruleMonday18 [])
        "5-M-Red" "Grade 5 Red" "5B-Red" []).map (fun e => e.datetime)) ∧
    (firstOccurrence (toDayNumber 2025 1 6 * 86400) 0 18 0 + 2 * 604800 ∈
      (generate_practice_events
        (cfgOneRule "2025-01-06" "2025-01-20" blackoutJan13 "5-M-Red" ruleMonday18 [])
        "5-M-Red" "Grade 5 Red" "5B-Red" []).map (fun e => e.datetime)) ∧
    (toDayNumber 2025 1 13 * 86400 + 19 * 3600 + 0 * 60 ∈
      (generate_practice_events
        (cfgOneAdhoc "2025-01-06" "2025-01-20" blackoutJan13 "5-M-Red" adhocJan13at19)
        "5-M-Red" "Grade 5 Red" "5B-Red" []).map (fun e => e.datetime)) := by
  refine ⟨?_, ?_, ?_⟩
  · exact (blackout_skips_recurring_not_adhoc "2025-01-06" "2025-01-20"
      (toDayNumber 2025 1 6) (toDayNumber 2025 1 20) blackoutJan13
      "5-M-Red" "Grade 5 Red" "5B-Red" ruleMonday18 0 18 0
      (by decide) (by decide) (by decide) (by decide)
      adhocJan13at19 "2025-01-13" (toDayNumber 2025 1 13) 19 0
      (by decide) (by decide) (by decide) (by decide) (by decide) 1).1.1
      (by decide) (by decide)
  · exact (blackout_skips_recurring_not_adhoc "2025-01-06" "2025-01-20"
      (toDayNumber 2025 1 6) (toDayNumber 2025 1 20) blackoutJan13
      "5-M-Red" "Grade 5 Red" "5B-Red" ruleMonday18 0 18 0
      (by decide) (by decide) (by decide) (by decide)
      adhocJan13at19 "2025-01-13" (toDayNumber 2025 1 13) 19 0
      (by decide) (by decide) (by decide) (by decide) (by decide) 2).1.2
      (by decide) (by decide)
  · exact (blackout_skips_recurring_not_adhoc "2025-01-06" "2025-01-20"
      (toDayNumber 2025 1 6) (toDayNumber 2025 1 20) blackoutJan13
      "5-M-Red" "Grade 5 Red" "5B-Red" ruleMonday18 0 18 0
      (by decide) (by decide) (by decide) (by decide)
      adhocJan13at19 "2025-01-13" (toDayNumber 2025 1 13) 19 0
      (by decide) (by decide) (by decide) (by decide) (by decide) 0).2
      (by decide) (by decide) (by decide)

/-- A successfully parsed season window has its start at midnight and its end
at 23:59:59. -/
theorem parse_season_shape (config : Config) (sstart send : Nat)
    (h : parse_season_dates config = (some sstart, some send)) :
    (∃ sd, sstart = sd * 86400) ∧ (∃ ed, send = ed * 86400 + 86399) := by
  unfold parse_season_dates at h
  cases hs : config.season with
  | none => rw [hs] at h; simp at h
  | some sea =>
    rw [hs] at h
    dsimp only at h
    rw [Prod.mk.injEq] at h
    constructor
    · have h1 := h.1
      cases hst : sea.start with
      | none => rw [hst] at h1; simp at h1
      | some s =>
        rw [hst] at h1
        dsimp only at h1
        by_cases hemp : s = ""
        · rw [if_neg (by simp [hemp])] at h1; simp at h1
        · rw [if_pos hemp] at h1
          cases hp : parseYMD s with
          | none => rw [hp] at h1; simp at h1
          | some d =>
            rw [hp] at h1
            simp only [Option.map_some'] at h1
            exact ⟨d, (Option.some.injEq _ _ ▸ h1).symm⟩
    · have h2 := h.2
      cases hst : sea.end_ with
      | none => rw [hst] at h2; simp at h2
      | some s =>
        rw [hst] at h2
        dsimp only at h2
        by_cases hemp : s = ""
        · rw [if_neg (by simp [hemp])] at h2; simp at h2
        · rw [if_pos hemp] at h2
          cases hp : parseYMD s with
          | none => rw [hp] at h2; simp at h2
          | some d =>
            rw [hp] at h2
            simp only [Option.map_some'] at h2
            exact ⟨d, (Option.some.injEq _ _ ▸ h2).symm⟩

/-- The `modify` time overlay keeps the day, keeps the seconds, and keeps the
time-of-day under 23:59:00 (its internal range guard mirrors the caught
`ValueError`). -/
theorem applyModTime_facts (mod : Modification) (cur : Nat) :
    (applyModTime mod cur) / 86400 = cur / 86400 ∧
    (applyModTime mod cur) % 60 = cur % 60 ∧
    (cur % 60 = 0 → cur % 86400 ≤ 86340 → (applyModTime mod cur) % 86400 ≤ 86340) := by
  unfold applyModTime
  cases mod.time with
  | none => exact ⟨rfl, rfl, fun _ h => h⟩
  | some t =>
    dsimp only
    by_cases hemp : t ≠ ""
    · rw [if_pos hemp]
      cases parseTimeHM t with
      | none => exact ⟨rfl, rfl, fun _ h => h⟩
      | some p =>
        obtain ⟨h, m⟩ := p
        dsimp only
        by_cases hrange : h ≤ 23 ∧ m ≤ 59
        · rw [if_pos hrange]
          unfold replaceHM
          obtain ⟨hh, hm⟩ := hrange
          refine ⟨by omega, by omega, by omega⟩
        · rw [if_neg hrange]
          exact ⟨rfl, rfl, fun _ h2 => h2⟩
    · rw [if_neg hemp]
      exact ⟨rfl, rfl, fun _ h => h⟩

theorem lookupDay_lt7 (s : String) (w : Nat) (h : lookupDay s = some w) : w < 7 := by
  unfold lookupDay at h
  cases hf : DAY_TO_WEEKDAY.find? (fun p => p.1 == s) with
  | none => rw [hf] at h; simp at h
  | some p =>
    rw [hf] at h
    have hmem : p ∈ DAY_TO_WEEKDAY := List.mem_of_find?_eq_some hf
    have hp2 : p.2 = w := by simpa using h
    rw [← hp2]
    fin_cases hmem <;> decide

/-- The first occurrence of a weekday rule sits on day `sd + days_until`, at
`h:m:00`, on the requested weekday. -/
theorem firstOccurrence_facts (sd w h m : Nat) (hw : w < 7) (hh : h ≤ 23) (hm : m ≤ 59) :
    firstOccurrence (sd * 86400) w h m % 60 = 0 ∧
    firstOccurrence (sd * 86400) w h m % 86400 ≤ 86340 ∧
    sd ≤ firstOccurrence (sd * 86400) w h m / 86400 ∧
    firstOccurrence (sd * 86400) w h m / 86400 % 7 = w := by
  simp only [firstOccurrence, replaceTimeHM0, weekdayOf]
  set du := ((((w : Int) - ((sd * 86400 / 86400 % 7 : Nat) : Int)) % 7).toNat) with hdu
  have hdu7 : du < 7 ∧ (sd + du) % 7 = w := by
    rw [hdu]
    omega
  obtain ⟨hlt, hmod⟩ := hdu7
  clear_value du
  omega

/-- Invariant transfer across the emit-or-skip tail of one loop iteration. -/
theorem recurStep_inv (send ed : Nat) (hsend : send = ed * 86400 + 86399)
    (mods : List Modification) (blk : List (Nat × Nat × String))
    (games : List (Option Nat)) (tk tn sn : String) (sstart sd : Nat)
    (hstart : sstart = sd * 86400) (w fuel : Nat)
    (ih : ∀ (current duration : Nat) (loc nts : String),
      current % 60 = 0 → current % 86400 ≤ 86340 →
      sd ≤ current / 86400 → current / 86400 % 7 = w →
      ∀ e ∈ recurLoop send mods blk games tk tn sn fuel current duration loc nts,
        sstart ≤ e.datetime ∧ e.datetime ≤ send ∧ e.datetime / 86400 % 7 = w)
    (cur dur : Nat) (loc nts : String)
    (hcur : cur ≤ send) (h60 : cur % 60 = 0) (h86 : cur % 86400 ≤ 86340)
    (hsd : sd ≤ cur / 86400) (hw : cur / 86400 % 7 = w) :
    ∀ e ∈ (if (is_blackout_date cur blk).isSome then
        recurLoop send mods blk games tk tn sn fuel (cur + 604800) dur loc nts
      else if conflicts_with_game games cur dur then
        recurLoop send mods blk games tk tn sn fuel (cur + 604800) dur loc nts
      else
        mkPracticeEvent tk tn sn cur dur loc nts ::
          recurLoop send mods blk games tk tn sn fuel (cur + 604800) dur loc nts),
      sstart ≤ e.datetime ∧ e.datetime ≤ send ∧ e.datetime / 86400 % 7 = w := by
  have hnext : ∀ e ∈ recurLoop send mods blk games tk tn sn fuel (cur + 604800) dur loc nts,
      sstart ≤ e.datetime ∧ e.datetime ≤ send ∧ e.datetime / 86400 % 7 = w :=
    ih (cur + 604800) dur loc nts (by omega) (by omega) (by omega) (by omega)
  intro e he
  by_cases hb : (is_blackout_date cur blk).isSome
  · rw [if_pos hb] at he
    exact hnext e he
  · rw [if_neg hb] at he
    by_cases hc : conflicts_with_game games cur dur
    · rw [if_pos hc] at he
      exact hnext e he
    · rw [if_neg hc] at he
      rcases List.mem_cons.mp he with rfl | he2
      · rw [mkPracticeEvent_datetime]
        omega
      · exact hnext e he2

/-- The weekly loop only emits events inside the season window and on the
initial weekday, whatever the modifications do. -/
theorem recurLoop_inv (send ed : Nat) (hsend : send = ed * 86400 + 86399)
    (mods : List Modification) (blk : List (Nat × Nat × String))
    (games : List (Option Nat)) (tk tn sn : String) (sstart sd : Nat)
    (hstart : sstart = sd * 86400) (w : Nat) :
    ∀ (fuel current duration : Nat) (loc nts : String),
      current % 60 = 0 → current % 86400 ≤ 86340 →
      sd ≤ current / 86400 → current / 86400 % 7 = w →
      ∀ e ∈ recurLoop send mods blk games tk tn sn fuel current duration loc nts,
        sstart ≤ e.datetime ∧ e.datetime ≤ send ∧ e.datetime / 86400 % 7 = w := by
  intro fuel
  induction fuel with
  | zero =>
    intro current duration loc nts _ _ _ _ e he
    simp [recurLoop] at he
  | succ fuel ih =>
    intro current duration loc nts h60 h86 hsd hw e he
    simp only [recurLoop] at he
    by_cases hcur : current ≤ send
    · rw [if_pos hcur] at he
      cases hfm : findMod mods (formatYMD (current / 86400)) with
      | none =>
        rw [hfm] at he
        dsimp only at he
        exact recurStep_inv send ed hsend mods blk games tk tn sn sstart sd hstart w fuel
          ih current duration loc nts hcur h60 h86 hsd hw e he
      | some mod =>
        rw [hfm] at he
        dsimp only at he
        by_cases hca : mod.action = some "cancel"
        · rw [if_pos hca] at he
          exact ih (current + 604800) duration loc nts (by omega) (by omega)
            (by omega) (by omega) e he
        · rw [if_neg hca] at he
          by_cases hma : mod.action = some "modify"
          · rw [if_pos hma] at he
            obtain ⟨hd1, hd2, hd3⟩ := applyModTime_facts mod current
            exact recurStep_inv send ed hsend mods blk games tk tn sn sstart sd hstart w fuel
              ih (applyModTime mod current) (applyModDuration mod duration)
              (applyModStr mod.location loc) (applyModStr mod.notes nts)
              (by omega) (by omega) (by omega) (by omega) (by omega) e he
          · rw [if_neg hma] at he
            exact recurStep_inv send ed hsend mods blk games tk tn sn sstart sd hstart w fuel
              ih current duration loc nts hcur h60 h86 hsd hw e he
    · rw [if_neg hcur] at he
      simp at he

/-- Ad-hoc events pass the explicit season-window guard. -/
theorem adhocEvents_window (sstart send : Nat) (games : List (Option Nat))
    (tk tn sn : String) :
    ∀ (l : List AdhocEntry), ∀ e ∈ adhocEvents sstart send games tk tn sn l,
      sstart ≤ e.datetime ∧ e.datetime ≤ send := by
  intro l
  induction l with
  | nil => simp [adhocEvents]
  | cons a rest ih =>
    intro e he
    have hstep : adhocEvents sstart send games tk tn sn (a :: rest) =
        (match a.date with
        | none => adhocEvents sstart send games tk tn sn rest
        | some date_str =>
          if date_str = "" then adhocEvents sstart send games tk tn sn rest
          else
            match parseTimeHM (a.time.getD "18:00") with
            | none => adhocEvents sstart send games tk tn sn rest
            | some (hour, minute) =>
              if hour ≤ 23 ∧ minute ≤ 59 then
                match parseYMD date_str with
                | none => adhocEvents sstart send games tk tn sn rest
                | some day =>
                  let practice_dt := day * 86400 + hour * 3600 + minute * 60
                  if sstart ≤ practice_dt ∧ practice_dt ≤ send then
                    if conflicts_with_game games practice_dt (a.duration.getD 60) then
                      adhocEvents sstart send games tk tn sn rest
                    else
                      mkPracticeEvent tk tn sn practice_dt (a.duration.getD 60)
                        (a.location.getD "") (a.notes.getD "") ::
                        adhocEvents sstart send games tk tn sn rest
                  else adhocEvents sstart send games tk tn sn rest
              else adhocEvents sstart send games tk tn sn rest) := rfl
    rw [hstep] at he
    cases had : a.date with
    | none => rw [had] at he; exact ih e he
    | some ds =>
      rw [had] at he
      dsimp only at he
      by_cases hemp : ds = ""
      · rw [if_pos hemp] at he; exact ih e he
      · rw [if_neg hemp] at he
        cases hpt : parseTimeHM (a.time.getD "18:00") with
        | none => rw [hpt] at he; exact ih e he
        | some p =>
          obtain ⟨hh, mm⟩ := p
          rw [hpt] at he
          dsimp only at he
          by_cases hrange : hh ≤ 23 ∧ mm ≤ 59
          · rw [if_pos hrange] at he
            cases hpd : parseYMD ds with
            | none => rw [hpd] at he; exact ih e he
            | some day =>
              rw [hpd] at he
              dsimp only at he
              by_cases hin : sstart ≤ day * 86400 + hh * 3600 + mm * 60 ∧
                  day * 86400 + hh * 3600 + mm * 60 ≤ send
              · rw [if_pos hin] at he
                by_cases hcf : conflicts_with_game games
                    (day * 86400 + hh * 3600 + mm * 60) (a.duration.getD 60)
                · rw [if_pos hcf] at he; exact ih e he
                · rw [if_neg hcf] at he
                  rcases List.mem_cons.mp he with rfl | he2
                  · rw [mkPracticeEvent_datetime]; exact hin
                  · exact ih e he2
              · rw [if_neg hin] at he; exact ih e he
          · rw [if_neg hrange] at he; exact ih e he

/-- C10: every generated practice lies inside the season window, and every
event of a recurring rule falls on that rule's weekday. -/
theorem practices_in_window_and_on_weekday (config : Config) (tk tn sn : String)
    (games : List (Option Nat)) (sstart send : Nat)
    (hparse : parse_season_dates config = (some sstart, some send))
    (tp : TeamPractices) (htp : lookupD config.practices tk = some tp)
    (hvalid : ∀ r ∈ tp.recurring, ∀ h m,
      parseTimeHM (r.time.getD "18:00") = some (h, m) → h ≤ 23 ∧ m ≤ 59) :
    (∀ e ∈ generate_practice_events config tk tn sn games,
      sstart ≤ e.datetime ∧ e.datetime ≤ send) ∧
    (∀ r ∈ tp.recurring, ∀ w,
      lookupDay (String.mk ((r.day.getD "").data.map Char.toLower)) = some w →
      ∀ e ∈ recurRuleEvents sstart send tp.modifications (parse_blackout_dates config)
          games tk tn sn r,
        sstart ≤ e.datetime ∧ e.datetime ≤ send ∧ e.datetime / 86400 % 7 = w) := by
  obtain ⟨⟨sd, rfl⟩, ⟨ed, rfl⟩⟩ := parse_season_shape config _ _ hparse
  have hrule : ∀ r ∈ tp.recurring, ∀ w,
      lookupDay (String.mk ((r.day.getD "").data.map Char.toLower)) = some w →
      ∀ e ∈ recurRuleEvents (sd * 86400) (ed * 86400 + 86399) tp.modifications
          (parse_blackout_dates config) games tk tn sn r,
        sd * 86400 ≤ e.datetime ∧ e.datetime ≤ ed * 86400 + 86399 ∧
          e.datetime / 86400 % 7 = w := by
    intro r hr w hld e he
    simp only [recurRuleEvents] at he
    rw [hld] at he
    dsimp only at he
    cases hpt : parseTimeHM (r.time.getD "18:00") with
    | none => rw [hpt] at he; simp at he
    | some p =>
      obtain ⟨h, m⟩ := p
      rw [hpt] at he
      dsimp only at he
      obtain ⟨hh, hm⟩ := hvalid r hr h m hpt
      obtain ⟨f1, f2, f3, f4⟩ := firstOccurrence_facts sd w h m
        (lookupDay_lt7 _ _ hld) hh hm
      exact recurLoop_inv (ed * 86400 + 86399) ed rfl tp.modifications
        (parse_blackout_dates config) games tk tn sn (sd * 86400) sd rfl w
        _ (firstOccurrence (sd * 86400) w h m) (r.duration.getD 60)
        (r.location.getD "") (r.notes.getD "") f1 f2 f3 f4 e he
  constructor
  · intro e he
    unfold generate_practice_events at he
    rw [htp, hparse] at he
    dsimp only at he
    rcases List.mem_append.mp he with he2 | he2
    · rw [List.mem_flatten] at he2
      rcases he2 with ⟨evs, hevs, hee⟩
      rw [List.mem_map] at hevs
      rcases hevs with ⟨r, hr, rfl⟩
      simp only [recurRuleEvents] at hee
      cases hld : lookupDay (String.mk ((r.day.getD "").data.map Char.toLower)) with
      | none => rw [hld] at hee; simp at hee
      | some w =>
        rw [hld] at hee
        have hmem2 : e ∈ recurRuleEvents (sd * 86400) (ed * 86400 + 86399)
            tp.modifications (parse_blackout_dates config) games tk tn sn r := by
          simp only [recurRuleEvents]
          rw [hld]
          exact hee
        have := hrule r hr w hld e hmem2
        exact ⟨this.1, this.2.1⟩
    · exact adhocEvents_window (sd * 86400) (ed * 86400 + 86399) games tk tn sn
        tp.adhoc e he2
  · exact hrule

/-- Witness for C10 on the three-Monday season with a modification. -/
theorem practices_in_window_and_on_weekday_witness :
    (∀ e ∈ generate_practice_events cfgModBleed "5-M-Red" "Grade 5 Red" "5B-Red" [],
      toDayNumber 2025 1 6 * 86400 ≤ e.datetime ∧
        e.datetime ≤ toDayNumber 2025 1 20 * 86400 + 86399) ∧
    (∀ r ∈ tpModBleed.recurring, ∀ w,
      lookupDay (String.mk ((r.day.getD "").data.map Char.toLower)) = some w →
      ∀ e ∈ recurRuleEvents (toDayNumber 2025 1 6 * 86400)
          (toDayNumber 2025 1 20 * 86400 + 86399) [modJan6GymB]
          (parse_blackout_dates cfgModBleed) [] "5-M-Red" "Grade 5 Red" "5B-Red" r,
        toDayNumber 2025 1 6 * 86400 ≤ e.datetime ∧
          e.datetime ≤ toDayNumber 2025 1 20 * 86400 + 86399 ∧
          e.datetime / 86400 % 7 = w) :=
  practices_in_window_and_on_weekday cfgModBleed "5-M-Red" "Grade 5 Red" "5B-Red" []
    (toDayNumber 2025 1 6 * 86400) (toDayNumber 2025 1 20 * 86400 + 86399)
    (by decide) tpModBleed (by decide)
    (by
      intro r hr h m hp
      have hr2 : r = ruleMondayA := by
        simpa [tpModBleed] using hr
      subst hr2
      rw [show parseTimeHM (ruleMondayA.time.getD "18:00") = some (18, 0) from by decide] at hp
      rw [Option.some.injEq, Prod.mk.injEq] at hp
      omega)

theorem wordChar_not_space (c : Char) (h : isWordChar c = true) : isPySpace c = false := by
  cases hs : isPySpace c
  · rfl
  · exfalso
    unfold isPySpace at hs
    simp only [Bool.or_eq_true, beq_iff_eq] at hs
    rcases hs with ((((h1 | h1) | h1) | h1) | h1) | h1 <;> subst h1 <;> exact absurd h (by decide)

theorem digit_isWordChar (c : Char) (h : c.isDigit = true) : isWordChar c = true := by
  simp [isWordChar, Char.isAlphanum, h]

theorem bg_not_digit (c : Char) (h : isBG c = true) : c.isDigit = false := by
  unfold isBG at h
  simp only [Bool.or_eq_true, beq_iff_eq] at h
  rcases h with ((h1 | h1) | h1) | h1 <;> subst h1 <;> decide

theorem space_not_digit : (' ' : Char).isDigit = false := by decide

theorem countWhile_le_length (p : Char → Bool) : ∀ l, countWhile p l ≤ l.length := by
  intro l
  induction l with
  | nil => simp [countWhile]
  | cons c l ih =>
    by_cases hp : p c
    · simp only [countWhile, if_pos hp, List.length_cons]
      omega
    · simp only [countWhile, if_neg hp, List.length_cons]
      omega

theorem countWhile_append (p : Char → Bool) :
    ∀ l1 l2, countWhile p (l1 ++ l2) =
      if countWhile p l1 = l1.length then l1.length + countWhile p l2
      else countWhile p l1 := by
  intro l1
  induction l1 with
  | nil => intro l2; simp [countWhile]
  | cons c l ih =>
    intro l2
    by_cases hp : p c
    · have e1 : countWhile p ((c :: l) ++ l2) = countWhile p (l ++ l2) + 1 := by
        simp [countWhile, hp]
      have e2 : countWhile p (c :: l) = countWhile p l + 1 := by
        simp [countWhile, hp]
      rw [e1, e2, ih l2]
      by_cases hc : countWhile p l = l.length
      · rw [if_pos hc, if_pos (by simp [hc]), List.length_cons]
        omega
      · rw [if_neg hc, if_neg (by simp only [List.length_cons]; omega)]
    · have e1 : countWhile p ((c :: l) ++ l2) = 0 := by simp [countWhile, hp]
      have e2 : countWhile p (c :: l) = 0 := by simp [countWhile, hp]
      rw [e1, e2, if_neg (by simp only [List.length_cons]; omega)]

theorem countWhile_all_eq (p : Char → Bool) :
    ∀ l, (∀ c ∈ l, p c = true) → countWhile p l = l.length := by
  intro l
  induction l with
  | nil => intro _; rfl
  | cons c l ih =>
    intro h
    simp only [countWhile, if_pos (h c (List.mem_cons_self c l)), List.length_cons,
      ih (fun x hx => h x (List.mem_cons_of_mem _ hx))]

theorem all_of_countWhile_eq (p : Char → Bool) :
    ∀ l, countWhile p l = l.length → ∀ c ∈ l, p c = true := by
  intro l
  induction l with
  | nil => intro _ c hc; simp at hc
  | cons a l ih =>
    intro h c hc
    by_cases hp : p a
    · simp only [countWhile, if_pos hp, List.length_cons] at h
      rcases List.mem_cons.mp hc with rfl | hc2
      · exact hp
      · exact ih (by omega) c hc2
    · simp only [countWhile, if_neg hp, List.length_cons] at h
      omega

theorem take_countWhile_all (p : Char → Bool) :
    ∀ l : List Char, ∀ c ∈ l.take (countWhile p l), p c = true := by
  intro l
  induction l with
  | nil => intro c hc; simp at hc
  | cons a l ih =>
    intro c hc
    by_cases hp : p a
    · simp only [countWhile, if_pos hp, List.take_succ_cons] at hc
      rcases List.mem_cons.mp hc with rfl | hc2
      · exact hp
      · exact ih c hc2
    · simp only [countWhile, if_neg hp, List.take_zero] at hc
      simp at hc

theorem drop_countWhile_head (p : Char → Bool) :
    ∀ (l : List Char) (c : Char) (r : List Char),
      l.drop (countWhile p l) = c :: r → p c = false := by
  intro l
  induction l with
  | nil => intro c r h; simp at h
  | cons a l ih =>
    intro c r h
    by_cases hp : p a
    · simp only [countWhile, if_pos hp, List.drop_succ_cons] at h
      exact ih c r h
    · simp only [countWhile, if_neg hp, List.drop_zero] at h
      rw [List.cons.injEq] at h
      rw [← h.1]
      exact Bool.of_not_eq_true hp

theorem subAux_skip_append (m : List Char → Option Nat) :
    ∀ (u rest : List Char), subAux m (u ++ rest) u.length = subAux m rest 0 := by
  intro u
  induction u with
  | nil => intro rest; rfl
  | cons c u ih => intro rest; exact ih rest

theorem matchLenGG_not_space (c : Char) (l : List Char) (hc : isPySpace c = false) :
    matchLenGG (c :: l) = none := by
  simp [matchLenGG, countWhile, hc]

theorem matchLenDiv_not_space (c : Char) (l : List Char) (hc : isPySpace c = false) :
    matchLenDiv (c :: l) = none := by
  simp [matchLenDiv, countWhile, hc]

theorem subAux_word_lead (m : List Char → Option Nat)
    (hm : ∀ c l, isPySpace c = false → m (c :: l) = none) :
    ∀ (t rest : List Char), (∀ c ∈ t, isWordChar c = true) →
      subAux m (t ++ rest) 0 = t ++ subAux m rest 0 := by
  intro t
  induction t with
  | nil => intro rest _; rfl
  | cons c t ih =>
    intro rest ht
    have hc : isPySpace c = false := wordChar_not_space c (ht c (List.mem_cons_self c t))
    have hstep : subAux m ((c :: t) ++ rest) 0 =
        match m (c :: (t ++ rest)) with
        | some (k + 1) => subAux m (t ++ rest) k
        | _ => c :: subAux m (t ++ rest) 0 := rfl
    rw [hstep, hm c _ hc]
    dsimp only
    rw [ih rest (fun x hx => ht x (List.mem_cons_of_mem _ hx))]
    rfl

/-- At a separator, the grade+gender pattern matches exactly the following
whole token. -/
theorem matchLenGG_sep (u rest : List Char) (hu1 : u ≠ [])
    (hu2 : ∀ c ∈ u, isWordChar c = true)
    (hrest : rest = [] ∨ ∃ r, rest = ' ' :: r) :
    matchLenGG (' ' :: (u ++ rest)) =
      if isGGTokB u then some (u.length + 1) else none := by
  have hcw0 : countWhile isPySpace (u ++ rest) = 0 := by
    cases u with
    | nil => exact absurd rfl hu1
    | cons c0 u' =>
      have := wordChar_not_space c0 (hu2 c0 (List.mem_cons_self _ _))
      simp [countWhile, this]
  have hs : countWhile isPySpace (' ' :: (u ++ rest)) = 1 := by
    simp [countWhile, hcw0, show isPySpace ' ' = true from rfl]
  have key : matchLenGG (' ' :: (u ++ rest)) =
      (if countWhile (fun c => c.isDigit) (u ++ rest) == 0 then none
       else
         match (u ++ rest).drop (countWhile (fun c => c.isDigit) (u ++ rest)) with
         | c :: rest2 =>
           if isBG c && boundaryOK rest2 then
             some (1 + countWhile (fun c => c.isDigit) (u ++ rest) + 1)
           else none
         | [] => none) := by
    simp only [matchLenGG, hs]
    rw [if_neg (by decide)]
    rfl
  by_cases hall : countWhile (fun c => c.isDigit) u = u.length
  · have hrest0 : countWhile (fun c => c.isDigit) rest = 0 := by
      rcases hrest with rfl | ⟨r, rfl⟩
      · rfl
      · simp [countWhile, space_not_digit]
    have hd : countWhile (fun c => c.isDigit) (u ++ rest) = u.length := by
      rw [countWhile_append, if_pos hall, hrest0]
      omega
    have hgg : isGGTokB u = false := by
      simp only [isGGTokB, hall, List.drop_length]
      simp
    rw [key, hd, hgg]
    rw [if_neg (by simp [hu1]), List.drop_left]
    rcases hrest with rfl | ⟨r, rfl⟩
    · simp
    · simp [show isBG ' ' = false from rfl]
  · have hlt : countWhile (fun c => c.isDigit) u < u.length :=
      lt_of_le_of_ne (countWhile_le_length _ u) hall
    have hd : countWhile (fun c => c.isDigit) (u ++ rest) =
        countWhile (fun c => c.isDigit) u := by
      rw [countWhile_append, if_neg hall]
    by_cases h0 : countWhile (fun c => c.isDigit) u = 0
    · have hgg : isGGTokB u = false := by
        simp only [isGGTokB, h0]
        simp
      rw [key, hd, h0, hgg]
      simp
    · have hdrop : (u ++ rest).drop (countWhile (fun c => c.isDigit) u) =
          u.drop (countWhile (fun c => c.isDigit) u) ++ rest :=
        List.drop_append_of_le_length (le_of_lt hlt)
      cases hdu : u.drop (countWhile (fun c => c.isDigit) u) with
      | nil =>
        exfalso
        have := congrArg List.length hdu
        rw [List.length_drop] at this
        simp at this
        omega
      | cons c' u'' =>
        have hc'w : isWordChar c' = true :=
          hu2 c' (List.mem_of_mem_drop (hdu ▸ List.mem_cons_self c' u''))
        rw [key, hd, hdrop, hdu]
        rw [if_neg (by simp [h0])]
        show (if isBG c' && boundaryOK (u'' ++ rest) then
            some (1 + countWhile (fun c => c.isDigit) u + 1) else none) =
          if isGGTokB u then some (u.length + 1) else none
        by_cases hbg : isBG c' = true
        · cases u'' with
          | nil =>
            have hbo : boundaryOK ([] ++ rest) = true := by
              rcases hrest with rfl | ⟨r, rfl⟩
              · rfl
              · simp [boundaryOK, show isWordChar ' ' = false from rfl]
            have hlen : u.length = countWhile (fun c => c.isDigit) u + 1 := by
              have h2 := congrArg List.length hdu
              rw [List.length_drop] at h2
              simp at h2
              omega
            have hgg : isGGTokB u = true := by
              simp only [isGGTokB, hdu]
              simp [h0, hbg]
            rw [hbg, hbo, hgg]
            simp only [Bool.and_self, if_true, Option.some.injEq]
            omega
          | cons c'' u''' =>
            have hmem : c'' ∈ List.drop (countWhile (fun c => c.isDigit) u) u := by
              rw [hdu]
              exact List.mem_cons_of_mem _ (List.mem_cons_self c'' u''')
            have hc''w : isWordChar c'' = true := hu2 c'' (List.mem_of_mem_drop hmem)
            have hbo : boundaryOK ((c'' :: u''') ++ rest) = false := by
              simp [boundaryOK, hc''w]
            have hgg : isGGTokB u = false := by
              simp only [isGGTokB, hdu]
              simp
            rw [hbo, hgg]
            simp
        · have hgg : isGGTokB u = false := by
            simp only [isGGTokB, hdu]
            cases u'' <;> simp [hbg]
          rw [hgg]
          simp [hbg]

/-- At a separator, the division pattern matches exactly the following whole
token. -/
theorem matchLenDiv_sep (u rest : List Char) (hu1 : u ≠ [])
    (hu2 : ∀ c ∈ u, isWordChar c = true)
    (hrest : rest = [] ∨ ∃ r, rest = ' ' :: r) :
    matchLenDiv (' ' :: (u ++ rest)) =
      if isDivTokB u then some (u.length + 1) else none := by
  have hcw0 : countWhile isPySpace (u ++ rest) = 0 := by
    cases u with
    | nil => exact absurd rfl hu1
    | cons c0 u' =>
      have := wordChar_not_space c0 (hu2 c0 (List.mem_cons_self _ _))
      simp [countWhile, this]
  have hs : countWhile isPySpace (' ' :: (u ++ rest)) = 1 := by
    simp [countWhile, hcw0, show isPySpace ' ' = true from rfl]
  cases u with
  | nil => exact absurd rfl hu1
  | cons c1 u1 =>
    have key : matchLenDiv (' ' :: ((c1 :: u1) ++ rest)) =
        (if c1 == 'd' || c1 == 'D' then
          (if countWhile (fun c2 => c2.isDigit) (u1 ++ rest) == 0 then none
           else if boundaryOK ((u1 ++ rest).drop
              (countWhile (fun c2 => c2.isDigit) (u1 ++ rest))) then
             some (1 + 1 + countWhile (fun c2 => c2.isDigit) (u1 ++ rest))
           else none)
         else none) := by
      simp only [matchLenDiv, hs]
      rw [if_neg (by decide)]
      rfl
    rw [key]
    by_cases hdD : (c1 == 'd' || c1 == 'D') = true
    · rw [if_pos hdD]
      by_cases hall : countWhile (fun c2 => c2.isDigit) u1 = u1.length
      · have hrest0 : countWhile (fun c2 => c2.isDigit) rest = 0 := by
          rcases hrest with rfl | ⟨r, rfl⟩
          · rfl
          · simp [countWhile, space_not_digit]
        have hd : countWhile (fun c2 => c2.isDigit) (u1 ++ rest) = u1.length := by
          rw [countWhile_append, if_pos hall, hrest0]
          omega
        cases u1 with
        | nil =>
          have hdiv : isDivTokB [c1] = false := by
            unfold isDivTokB
            simp
          rw [hdiv, hd]
          simp
        | cons a1 a2 =>
          have hdiv : isDivTokB (c1 :: a1 :: a2) = true := by
            simp only [isDivTokB, hdD, Bool.true_and, Bool.and_eq_true, decide_eq_true_eq,
              List.all_eq_true]
            exact ⟨by simp, fun x hx => by
              simpa using all_of_countWhile_eq _ _ hall x hx⟩
          rw [hdiv, hd]
          have hbo : boundaryOK (((a1 :: a2) ++ rest).drop (a1 :: a2).length) = true := by
            rw [List.drop_left]
            rcases hrest with rfl | ⟨r, rfl⟩
            · rfl
            · simp [boundaryOK, show isWordChar ' ' = false from rfl]
          rw [if_neg (by simp), if_pos hbo, if_pos rfl]
          simp only [List.length_cons, Option.some.injEq]
          omega
      · have hlt : countWhile (fun c2 => c2.isDigit) u1 < u1.length :=
          lt_of_le_of_ne (countWhile_le_length _ u1) hall
        have hd : countWhile (fun c2 => c2.isDigit) (u1 ++ rest) =
            countWhile (fun c2 => c2.isDigit) u1 := by
          rw [countWhile_append, if_neg hall]
        have hdiv : isDivTokB (c1 :: u1) = false := by
          unfold isDivTokB
          cases hck : u1.all (fun c2 => c2.isDigit) with
          | false => simp [hck]
          | true =>
            exfalso
            rw [List.all_eq_true] at hck
            have := countWhile_all_eq (fun c2 => c2.isDigit) u1
              (fun x hx => by simpa using hck x hx)
            omega
        rw [hdiv, hd]
        by_cases h0 : countWhile (fun c2 => c2.isDigit) u1 = 0
        · rw [h0]
          simp
        · rw [if_neg (by simp [h0])]
          have hdrop : (u1 ++ rest).drop (countWhile (fun c2 => c2.isDigit) u1) =
              u1.drop (countWhile (fun c2 => c2.isDigit) u1) ++ rest :=
            List.drop_append_of_le_length (le_of_lt hlt)
          cases hdu : u1.drop (countWhile (fun c2 => c2.isDigit) u1) with
          | nil =>
            exfalso
            have := congrArg List.length hdu
            rw [List.length_drop] at this
            simp at this
            omega
          | cons c' u'' =>
            have hc'w : isWordChar c' = true := by
              refine hu2 c' (List.mem_cons_of_mem _ ?_)
              exact List.mem_of_mem_drop (hdu ▸ List.mem_cons_self c' u'')
            rw [hdrop, hdu]
            have hbo : boundaryOK (c' :: (u'' ++ rest)) = false := by
              simp [boundaryOK, hc'w]
            rw [if_neg (by simp [hbo])]
            rfl
    · rw [if_neg hdD]
      have hdiv : isDivTokB (c1 :: u1) = false := by
        unfold isDivTokB
        simp only [Bool.eq_false_iff] at hdD ⊢
        intro hcontra
        rw [Bool.and_eq_true, Bool.and_eq_true] at hcontra
        exact hdD hcontra.1.1
      rw [hdiv]
      rfl

/-- The tail part of a token join is empty or starts with the separator. -/
theorem sepJoin_shape (ts : List (List Char)) :
    sepJoin ts = [] ∨ ∃ r, sepJoin ts = ' ' :: r := by
  cases ts with
  | nil => exact Or.inl rfl
  | cons u ts => exact Or.inr ⟨u ++ sepJoin ts, rfl⟩

/-- Substitution over a separator-joined token list deletes exactly the tokens
the pattern matches, one leading separator with each. -/
theorem subAux_sepJoin (m : List Char → Option Nat) (p : List Char → Bool)
    (hm_word : ∀ c l, isPySpace c = false → m (c :: l) = none)
    (hm_sep : ∀ u rest2, u ≠ [] → (∀ c ∈ u, isWordChar c = true) →
      (rest2 = [] ∨ ∃ r, rest2 = ' ' :: r) →
      m (' ' :: (u ++ rest2)) = if p u then some (u.length + 1) else none) :
    ∀ ts : List (List Char), (∀ u ∈ ts, wordTok u) →
      subAux m (sepJoin ts) 0 = sepJoin (ts.filter (fun u => !(p u))) := by
  intro ts
  induction ts with
  | nil => intro _; rfl
  | cons u ts ih =>
    intro hts
    have hu := hts u (List.mem_cons_self u ts)
    have hm := hm_sep u (sepJoin ts) hu.1 hu.2 (sepJoin_shape ts)
    have hstep : subAux m (sepJoin (u :: ts)) 0 =
        match m (' ' :: (u ++ sepJoin ts)) with
        | some (k + 1) => subAux m (u ++ sepJoin ts) k
        | _ => ' ' :: subAux m (u ++ sepJoin ts) 0 := rfl
    rw [hstep, hm]
    by_cases hp : p u = true
    · rw [if_pos hp]
      dsimp only
      rw [subAux_skip_append, ih (fun x hx => hts x (List.mem_cons_of_mem _ hx))]
      simp [List.filter_cons, hp]
    · rw [if_neg hp]
      dsimp only
      rw [subAux_word_lead m hm_word u (sepJoin ts) hu.2,
        ih (fun x hx => hts x (List.mem_cons_of_mem _ hx))]
      have hf : List.filter (fun u2 => !(p u2)) (u :: ts) =
          u :: List.filter (fun u2 => !(p u2)) ts := by
        simp [List.filter_cons, hp]
      rw [hf]
      rfl

/-- `re.sub` with either token pattern maps a join of word tokens to the join
that keeps the head token and drops every later matching token. -/
theorem pySub_joinTok (m : List Char → Option Nat) (p : List Char → Bool)
    (hm_word : ∀ c l, isPySpace c = false → m (c :: l) = none)
    (hm_sep : ∀ u rest2, u ≠ [] → (∀ c ∈ u, isWordChar c = true) →
      (rest2 = [] ∨ ∃ r, rest2 = ' ' :: r) →
      m (' ' :: (u ++ rest2)) = if p u then some (u.length + 1) else none)
    (t : List Char) (ts : List (List Char)) (ht : ∀ c ∈ t, isWordChar c = true)
    (hts : ∀ u ∈ ts, wordTok u) :
    pySub m (joinTok (t :: ts)) = joinTok (t :: ts.filter (fun u => !(p u))) := by
  show subAux m (t ++ sepJoin ts) 0 = t ++ sepJoin (ts.filter (fun u => !(p u)))
  rw [subAux_word_lead m hm_word t (sepJoin ts) ht,
    subAux_sepJoin m p hm_word hm_sep ts hts]

/-- An upper-case basic latin letter is lowered by adding 32 to its code. -/
theorem toLower_toNat_of_upper (c : Char) (h1 : 65 ≤ c.toNat) (h2 : c.toNat ≤ 90) :
    (Char.toLower c).toNat = c.toNat + 32 := by
  simp only [Char.toLower]
  rw [if_pos ⟨h1, h2⟩]
  have hv : (c.toNat + 32).isValidChar := Or.inl (by omega)
  rw [Char.ofNat, dif_pos hv]
  rfl

/-- `toLower` leaves any character outside `A`–`Z` unchanged. -/
theorem toLower_eq_self_of_not_upper (c : Char)
    (h : ¬(65 ≤ c.toNat ∧ c.toNat ≤ 90)) : Char.toLower c = c := by
  simp only [Char.toLower]
  rw [if_neg h]

/-- Lower-casing preserves the regex word class. -/
theorem isWordChar_toLower (c : Char) (h : isWordChar c = true) :
    isWordChar (Char.toLower c) = true := by
  by_cases hu : 65 ≤ c.toNat ∧ c.toNat ≤ 90
  · have hn := toLower_toNat_of_upper c hu.1 hu.2
    have h97 : (97 : Nat) ≤ (Char.toLower c).toNat := by omega
    have h122 : (Char.toLower c).toNat ≤ 122 := by omega
    have hlow : (Char.toLower c).isLower = true := by
      unfold Char.isLower
      rw [Bool.and_eq_true, decide_eq_true_eq, decide_eq_true_eq]
      exact ⟨h97, h122⟩
    simp [isWordChar, Char.isAlphanum, Char.isAlpha, hlow]
  · rw [toLower_eq_self_of_not_upper c hu]
    exact h

/-- Lower-casing a word token yields a word token. -/
theorem wordTok_map_toLower (t : List Char) (ht : wordTok t) :
    wordTok (t.map Char.toLower) := by
  constructor
  · simpa using ht.1
  · intro c hc
    rw [List.mem_map] at hc
    obtain ⟨a, ha, rfl⟩ := hc
    exact isWordChar_toLower a (ht.2 a ha)

/-- Lower-casing distributes over the separator-joined tail. -/
theorem map_toLower_sepJoin : ∀ ts : List (List Char),
    (sepJoin ts).map Char.toLower = sepJoin (ts.map (List.map Char.toLower)) := by
  intro ts
  induction ts with
  | nil => rfl
  | cons u ts ih =>
    show (' ' :: (u ++ sepJoin ts)).map Char.toLower =
      ' ' :: (u.map Char.toLower ++ sepJoin (ts.map (List.map Char.toLower)))
    rw [List.map_cons, List.map_append, ih]
    rw [show Char.toLower ' ' = ' ' from by decide]

/-- Lower-casing distributes over a token join. -/
theorem map_toLower_joinTok (t : List Char) (ts : List (List Char)) :
    (joinTok (t :: ts)).map Char.toLower =
      joinTok (t.map Char.toLower :: ts.map (List.map Char.toLower)) := by
  show (t ++ sepJoin ts).map Char.toLower =
    t.map Char.toLower ++ sepJoin (ts.map (List.map Char.toLower))
  rw [List.map_append, map_toLower_sepJoin]

/-- Trailing-whitespace removal is the identity when the last character is a
word character. -/
theorem dropTrailWS_of_rev_word (l : List Char)
    (h : ∃ c r, l.reverse = c :: r ∧ isWordChar c = true) : dropTrailWS l = l := by
  obtain ⟨c, r, hrev, hc⟩ := h
  unfold dropTrailWS
  rw [hrev, List.dropWhile_cons, if_neg (by simp [wordChar_not_space c hc])]
  rw [← hrev, List.reverse_reverse]

/-- A join of word tokens ends in a word character. -/
theorem joinTok_rev_word : ∀ (ts : List (List Char)) (t : List Char), wordTok t →
    (∀ u ∈ ts, wordTok u) →
    ∃ c r, (t ++ sepJoin ts).reverse = c :: r ∧ isWordChar c = true := by
  intro ts
  induction ts with
  | nil =>
    intro t ht _
    cases hrev : t.reverse with
    | nil => exact absurd (by simpa using congrArg List.reverse hrev) ht.1
    | cons c r =>
      refine ⟨c, r, ?_, ?_⟩
      · show (t ++ ([] : List Char)).reverse = c :: r
        rw [List.append_nil]
        exact hrev
      refine ht.2 c ?_
      rw [← List.mem_reverse, hrev]
      exact List.mem_cons_self c r
  | cons u ts ih =>
    intro t ht hts
    obtain ⟨c, r, hrev, hc⟩ := ih u (hts u (List.mem_cons_self u ts))
      (fun x hx => hts x (List.mem_cons_of_mem _ hx))
    refine ⟨c, r ++ (' ' :: t.reverse), ?_, hc⟩
    show (t ++ (' ' :: (u ++ sepJoin ts))).reverse = _
    rw [List.reverse_append]
    rw [show (' ' :: (u ++ sepJoin ts)).reverse =
      (u ++ sepJoin ts).reverse ++ [' '] from by simp]
    rw [hrev]
    simp

/-- `str.strip()` is the identity on a join of word tokens. -/
theorem stripChars_joinTok (t : List Char) (ts : List (List Char)) (ht : wordTok t)
    (hts : ∀ u ∈ ts, wordTok u) :
    stripChars (joinTok (t :: ts)) = joinTok (t :: ts) := by
  cases t with
  | nil => exact absurd rfl ht.1
  | cons c0 t0 =>
    have hc0 : isPySpace c0 = false :=
      wordChar_not_space c0 (ht.2 c0 (List.mem_cons_self _ _))
    unfold stripChars
    have hdw : (joinTok ((c0 :: t0) :: ts)).dropWhile isPySpace =
        joinTok ((c0 :: t0) :: ts) := by
      show (c0 :: (t0 ++ sepJoin ts)).dropWhile isPySpace = _
      rw [List.dropWhile_cons, if_neg (by simp [hc0])]
      rfl
    rw [hdw]
    exact dropTrailWS_of_rev_word _ (joinTok_rev_word ts (c0 :: t0) ht hts)

/-- Whitespace collapsing passes an all-word prefix through unchanged. -/
theorem collapseAux_word_lead : ∀ (t rest : List Char) (b : Bool),
    (∀ c ∈ t, isWordChar c = true) → t ≠ [] →
    collapseAux (t ++ rest) b = t ++ collapseAux rest false := by
  intro t
  induction t with
  | nil => intro rest b _ h; exact absurd rfl h
  | cons c t ih =>
    intro rest b ht _
    have hc : isPySpace c = false := wordChar_not_space c (ht c (List.mem_cons_self c t))
    show collapseAux (c :: (t ++ rest)) b = c :: (t ++ collapseAux rest false)
    rw [show collapseAux (c :: (t ++ rest)) b =
        if isPySpace c then
          (if b then collapseAux (t ++ rest) true
           else ' ' :: collapseAux (t ++ rest) true)
        else c :: collapseAux (t ++ rest) false from rfl]
    rw [if_neg (by simp [hc])]
    cases t with
    | nil => rfl
    | cons c2 t2 =>
      rw [ih rest false (fun x hx => ht x (List.mem_cons_of_mem _ hx)) (by simp)]

/-- Whitespace collapsing is the identity on the separator-joined tail. -/
theorem collapseAux_sepJoin : ∀ ts : List (List Char), (∀ u ∈ ts, wordTok u) →
    collapseAux (sepJoin ts) false = sepJoin ts := by
  intro ts
  induction ts with
  | nil => intro _; rfl
  | cons u ts ih =>
    intro hts
    have hu := hts u (List.mem_cons_self u ts)
    show collapseAux (' ' :: (u ++ sepJoin ts)) false = ' ' :: (u ++ sepJoin ts)
    rw [show collapseAux (' ' :: (u ++ sepJoin ts)) false =
        ' ' :: collapseAux (u ++ sepJoin ts) true from rfl]
    rw [collapseAux_word_lead u (sepJoin ts) true hu.2 hu.1,
      ih (fun x hx => hts x (List.mem_cons_of_mem _ hx))]

/-- Whitespace collapsing is the identity on a join of word tokens. -/
theorem collapseWS_joinTok (t : List Char) (ts : List (List Char)) (ht : wordTok t)
    (hts : ∀ u ∈ ts, wordTok u) :
    collapseWS (joinTok (t :: ts)) = joinTok (t :: ts) := by
  show collapseAux (t ++ sepJoin ts) false = t ++ sepJoin ts
  rw [collapseAux_word_lead t (sepJoin ts) false ht.2 ht.1, collapseAux_sepJoin ts hts]

/-- C6 counterexample: on `"Stoughton 5B D1"` the code yields `"stoughton"`
(tokens removed anywhere) while the claimed trailing-only reference pipeline
yields `"stoughton 5b"`. -/
theorem normalize_not_trailing_only_cex :
    normalize_opponent "Stoughton 5B D1" = "stoughton" ∧
    normalizeTrailingSpec "Stoughton 5B D1" = "stoughton 5b" ∧
    ("stoughton" : String) ≠ "stoughton 5b" := by
  decide

/-- C5 counterexample: two records sharing the dedup key and the sort key but
differing in `location`; swapping the input order changes which record
survives, so `dedupe` is not order-independent as claimed. -/
theorem dedupe_depends_on_order_cex :
    [gLoc2, gLoc1].Perm [gLoc1, gLoc2] ∧
    dedupe_games [gLoc1, gLoc2] ≠ dedupe_games [gLoc2, gLoc1] := by
  exact ⟨List.Perm.swap gLoc1 gLoc2 [], by decide⟩

/-- C6 (amended): on a join of whitespace-separated alphanumeric tokens,
`normalize_opponent` lower-cases everything, keeps the first token, and drops
every later token that matches the grade+gender pattern `\d+[bgBG]` or the
division pattern `[dD]\d+` — wherever those tokens occur in the string, not
only in trailing position. -/
theorem normalize_removes_tokens_anywhere (t : List Char) (ts : List (List Char))
    (ht : wordTok t) (hts : ∀ u ∈ ts, wordTok u) :
    normalize_opponent (String.mk (joinTok (t :: ts))) =
      String.mk (joinTok (t.map Char.toLower ::
        (ts.map (List.map Char.toLower)).filter
          (fun u => !(isGGTokB u) && !(isDivTokB u)))) := by
  have ht' : wordTok (t.map Char.toLower) := wordTok_map_toLower t ht
  have hts' : ∀ u ∈ ts.map (List.map Char.toLower), wordTok u := by
    intro u hu
    rw [List.mem_map] at hu
    obtain ⟨a, ha, rfl⟩ := hu
    exact wordTok_map_toLower a (hts a ha)
  show String.mk (stripChars (collapseWS (pySub matchLenDiv (pySub matchLenGG
      (stripChars ((joinTok (t :: ts)).map Char.toLower)))))) = _
  rw [map_toLower_joinTok t ts]
  rw [stripChars_joinTok _ _ ht' hts']
  rw [pySub_joinTok matchLenGG isGGTokB matchLenGG_not_space matchLenGG_sep
      _ _ ht'.2 hts']
  rw [pySub_joinTok matchLenDiv isDivTokB matchLenDiv_not_space matchLenDiv_sep
      _ _ ht'.2 (fun u hu => hts' u (List.mem_of_mem_filter hu))]
  have hff : ((ts.map (List.map Char.toLower)).filter
        (fun u => !(isGGTokB u))).filter (fun u => !(isDivTokB u)) =
      (ts.map (List.map Char.toLower)).filter
        (fun u => !(isGGTokB u) && !(isDivTokB u)) := by
    rw [List.filter_filter]
    exact List.filter_congr (fun a _ => Bool.and_comm _ _)
  rw [hff]
  have hfts : ∀ u ∈ (ts.map (List.map Char.toLower)).filter
      (fun u => !(isGGTokB u) && !(isDivTokB u)), wordTok u :=
    fun u hu => hts' u (List.mem_of_mem_filter hu)
  rw [collapseWS_joinTok _ _ ht' hfts, stripChars_joinTok _ _ ht' hfts]

/-- C6 amended, concrete instance: `"Sto 5B D1"` normalizes to `"sto"`. -/
theorem normalize_removes_tokens_anywhere_witness :
    wordTok ['S','t','o'] ∧
      normalize_opponent (String.mk (joinTok [['S','t','o'], ['5','B'], ['D','1']])) =
        String.mk (joinTok (['S','t','o'].map Char.toLower ::
          ([['5','B'], ['D','1']].map (List.map Char.toLower)).filter
            (fun u => !(isGGTokB u) && !(isDivTokB u)))) :=
  ⟨by decide, normalize_removes_tokens_anywhere ['S','t','o'] [['5','B'], ['D','1']]
    (by decide) (by decide)⟩

end SSBBall
